import Mathlib

/-!
Verification development for the Versioned Artifact Store
(`task_context_mcp.repositories.artifacts.ArtifactRepository`).

The store keeps versioned artifacts in an indexed document backend
(ChromaDB `Collection`).  Each stored record has a storage key
(`"{artifact_id}_v{version}"`), a document (the content), an embedding,
and a metadata map whose values are strings, integers or booleans
(Python `None` appears transiently before null-stripping).

The embedding below follows the Python source line by line:
* metadata maps are insertion-ordered association lists with Python
  `dict` semantics (`dictInsert`, `dictMerge`, `dictGet?`);
* the collection is a list of records; `get(ids=…)` and
  `get(where=…)` are filters; `update` is an in-place map;
* Python exceptions are modelled with `Except`: the repository-level
  errors are `StoreError.notFound` (the `ValueError("… not found")`
  raised by `update_artifact`/`delete_artifact`, called `NotFoundError`
  in the specification) and `StoreError.indexErr` (an exception from
  the backing index propagating through a write path);
* `get_artifact` wraps its whole body in `try/except` and returns
  `Option`, mapping every error to `none`;
* the `…Full` variants of the write operations take the outcome of
  each external call (index reads, embedding, index writes) as an
  `Except` argument, so that error-propagation behaviour can be
  stated; the plain operations instantiate them with the successful
  deterministic outcomes computed from the collection state.
-/

/-- A metadata value as storable in the index: Python `str`, `int`,
`bool`, or `None` (ChromaDB itself rejects `None`; it appears only
before null-stripping and on the archive write path). -/
inductive MVal where
  | s (v : String)
  | i (v : Int)
  | b (v : Bool)
  | null
deriving DecidableEq, Repr

/-- A metadata map: insertion-ordered key/value list (Python `dict`). -/
abbrev Dict := List (String × MVal)

/-- Python `d[k] = v` / later-entry-wins in `{**a, **b}`: update the
binding in place if the key exists, else append it. -/
def dictInsert (d : Dict) (k : String) (v : MVal) : Dict :=
  if d.any (fun p => p.1 = k) then
    d.map (fun p => if p.1 = k then (k, v) else p)
  else
    d ++ [(k, v)]

/-- Python `{**a, **b}`: fold `b`'s entries into `a`, later wins. -/
def dictMerge (a b : Dict) : Dict :=
  b.foldl (fun acc p => dictInsert acc p.1 p.2) a

/-- Python `d.get(k)` / `d[k]` lookup (first binding). -/
def dictGet? (d : Dict) (k : String) : Option MVal :=
  (d.find? (fun p => p.1 = k)).map (fun p => p.2)

/-- Python dict comprehension `{k: v for k, v in d.items() if p k v}`. -/
def dictFilter (p : String → MVal → Bool) (d : Dict) : Dict :=
  d.filter (fun q => p q.1 q.2)

/-- `ArtifactType` (`database/schemas.py`). -/
inductive ArtifactType where
  | practice
  | rule
  | prompt
  | result
deriving DecidableEq, Repr

/-- `ArtifactType.value` — the enum's string value. -/
def ArtifactType.value : ArtifactType → String
  | .practice => "practice"
  | .rule => "rule"
  | .prompt => "prompt"
  | .result => "result"

/-- `ArtifactStatus` (`database/schemas.py`). -/
inductive ArtifactStatus where
  | active
  | deprecated
  | archived
deriving DecidableEq, Repr

/-- `ArtifactStatus.value` — the enum's string value. -/
def ArtifactStatus.value : ArtifactStatus → String
  | .active => "active"
  | .deprecated => "deprecated"
  | .archived => "archived"

/-- One stored record of the document index: storage key, document
text, embedding vector, metadata map. -/
structure Rec where
  id : String
  document : String
  embedding : List Int
  metadata : Dict
deriving DecidableEq, Repr

/-- The collection state: the stored records. -/
abbrev Coll := List Rec

/-- `collection.get(ids=[…])`: the records whose key is listed. -/
def collGetByIds (c : Coll) (ids : List String) : List Rec :=
  c.filter (fun r => ids.contains r.id)

/-- `collection.get(where=…)` with a conjunction of equality
conditions on metadata fields. -/
def collGetWhere (c : Coll) (conds : List (String × MVal)) : List Rec :=
  c.filter (fun r => conds.all (fun kv => decide (dictGet? r.metadata kv.1 = some kv.2)))

/-- `collection.add(ids=[…], documents=[…], …)` with one record. -/
def collAdd (c : Coll) (r : Rec) : Coll := c ++ [r]

/-- `collection.update(ids=[doc_id], metadatas=[md])`: replace the
metadata of the record(s) stored under that key. -/
def collUpdate (c : Coll) (id : String) (md : Dict) : Coll :=
  c.map (fun r => if r.id = id then { r with metadata := md } else r)

/-- `ArtifactSchema` (`database/schemas.py`), the domain view object.
Timestamps are modelled by their ISO strings. -/
structure ArtifactSchema where
  artifact_id : String
  task_type : String
  artifact_type : ArtifactType
  version : Int
  content : String
  metadata : Dict
  status : ArtifactStatus
  deprecated_at : Option String
  deprecated_reason : Option String
  replacement_id : Option String
  created_at : String
deriving DecidableEq, Repr

/-- Repository-level error: `notFound` is the
`ValueError(f"Artifact {artifact_id} not found")` raised by
`update_artifact`/`delete_artifact` (the specification's
`NotFoundError`); `indexErr` is an exception from the backing index
propagating unchanged through a write path, carrying its message. -/
inductive StoreError where
  | notFound (artifact_id : String)
  | indexErr (msg : String)
deriving DecidableEq, Repr

/-- `_make_artifact_id`: the storage key `f"{artifact_id}_v{version}"`. -/
def mkArtifactKey (artifact_id : String) (version : Int) : String :=
  artifact_id ++ "_v" ++ toString version

/-- The reserved metadata field names pulled out of the stored map when
reconstructing the domain view (`standard_fields` in the source). -/
def standardFields : List String :=
  ["task_type", "artifact_type", "version", "status",
   "created_at", "deprecated_at", "deprecated_reason",
   "replacement_id", "artifact_id"]

/-- The custom-metadata projection of a stored metadata map
(`{k: v for k, v in metadata.items() if k not in standard_fields}`). -/
def customOf (md : Dict) : Dict :=
  dictFilter (fun k _ => ¬ standardFields.contains k) md

/-- Python truthiness of `metadata.get(k)` (`None`/missing, `""`, `0`,
`False` are falsy). -/
def isTruthy : Option MVal → Bool
  | none => false
  | some (.s t) => t ≠ ""
  | some (.i n) => n ≠ 0
  | some (.b v) => v
  | some .null => false

/-- `metadata["k"]` for a pydantic `str` field: `KeyError` when
missing, validation error when not a string. -/
def reqStr : Option MVal → Except Unit String
  | some (.s t) => .ok t
  | _ => .error ()

/-- `metadata["version"]` for the pydantic `int` field: `KeyError`
when missing, validation error otherwise (including `bool`). -/
def reqInt : Option MVal → Except Unit Int
  | some (.i n) => .ok n
  | _ => .error ()

/-- `ArtifactType(metadata["artifact_type"])`: `KeyError` when the key
is missing, `ValueError` when the value is not a member. -/
def parseType : Option MVal → Except Unit ArtifactType
  | some (.s "practice") => .ok .practice
  | some (.s "rule") => .ok .rule
  | some (.s "prompt") => .ok .prompt
  | some (.s "result") => .ok .result
  | _ => .error ()

/-- `ArtifactStatus(metadata["status"])`. -/
def parseStatus : Option MVal → Except Unit ArtifactStatus
  | some (.s "active") => .ok .active
  | some (.s "deprecated") => .ok .deprecated
  | some (.s "archived") => .ok .archived
  | _ => .error ()

/-- `datetime.fromisoformat(metadata["deprecated_at"]) if
metadata.get("deprecated_at") else None`: truthiness guard, then a
type error unless the value is a string. -/
def parseDepAt (v : Option MVal) : Except Unit (Option String) :=
  if isTruthy v then
    match v with
    | some (.s t) => .ok (some t)
    | _ => .error ()
  else
    .ok none

/-- `metadata.get(k)` for a pydantic `Optional[str]` field. -/
def parseOptStr : Option MVal → Except Unit (Option String)
  | none => .ok none
  | some .null => .ok none
  | some (.s t) => .ok (some t)
  | some _ => .error ()

/-- Reconstruction of the domain view from a stored record — the
`ArtifactSchema(...)` construction shared verbatim by `get_artifact`
and `list_artifacts`; any Python exception becomes `.error`. -/
def mkSchema (r : Rec) : Except Unit ArtifactSchema := do
  let aid ← reqStr (dictGet? r.metadata "artifact_id")
  let tt ← reqStr (dictGet? r.metadata "task_type")
  let at_ ← parseType (dictGet? r.metadata "artifact_type")
  let ver ← reqInt (dictGet? r.metadata "version")
  let st ← parseStatus (dictGet? r.metadata "status")
  let depAt ← parseDepAt (dictGet? r.metadata "deprecated_at")
  let depReason ← parseOptStr (dictGet? r.metadata "deprecated_reason")
  let replId ← parseOptStr (dictGet? r.metadata "replacement_id")
  let createdAt ← reqStr (dictGet? r.metadata "created_at")
  .ok ⟨aid, tt, at_, ver, r.document, customOf r.metadata, st,
       depAt, depReason, replId, createdAt⟩

/-- Numeric value of a metadata value under Python comparison
(`bool` is an `int` subtype); `none` for strings and `None`. -/
def toNum : MVal → Option Int
  | .i n => some n
  | .b v => some (if v then 1 else 0)
  | _ => none

/-- Python `metadata["version"] == version` against an `int`
(`True == 1`; comparing a string to an `int` is simply `False`). -/
def pyEqInt (v : MVal) (n : Int) : Bool :=
  match toNum v with
  | some m => m == n
  | none => false

/-- The `version is not None` loop of `get_artifact`: first record
whose `version` field equals the requested version (`break`), with a
`KeyError` if an examined record lacks the field. -/
def findVer : List Rec → Int → Except Unit (Option Rec)
  | [], _ => .ok none
  | r :: rs, v =>
    match dictGet? r.metadata "version" with
    | none => .error ()
    | some m => if pyEqInt m v then .ok (some r) else findVer rs v

/-- The `version is None` loop of `get_artifact`: running
`latest_idx`/`latest_version` scan starting from index 0 and version 0;
`metadata["version"] > latest_version` raises unless the value is
numeric. -/
def pickLatest : List Rec → Rec → Int → Except Unit Rec
  | [], best, _ => .ok best
  | r :: rs, best, bestv =>
    match dictGet? r.metadata "version" with
    | none => .error ()
    | some m =>
      match toNum m with
      | some n => if bestv < n then pickLatest rs r n else pickLatest rs best bestv
      | none => .error ()

/-- Body of `get_artifact` after the index call: empty result set means
`None`; otherwise pick the requested/latest record and rebuild the
view; any exception is caught by the surrounding `try` and becomes
`None`. -/
def getArtifactCore (recs : List Rec) (version : Option Int) : Option ArtifactSchema :=
  match recs with
  | [] => none
  | r0 :: _ =>
    let picked : Except Unit Rec :=
      match version with
      | some v =>
        match findVer recs v with
        | .error e => .error e
        | .ok (some r) => .ok r
        | .ok none => .ok r0
      | none => pickLatest recs r0 0
    match picked with
    | .error _ => none
    | .ok r =>
      match mkSchema r with
      | .error _ => none
      | .ok s => some s

/-- `get_artifact` given the outcome of its single index call: an
exception from the index is caught, logged and converted to `None`. -/
def getArtifactR (res : Except String (List Rec)) (version : Option Int) :
    Option ArtifactSchema :=
  match res with
  | .error _ => none
  | .ok recs => getArtifactCore recs version

/-- `get_artifact(artifact_id, version=None)` on a collection state:
fetch by exact key when a version is given, else by the
`artifact_id` equality filter. -/
def get_artifact (c : Coll) (artifact_id : String) (version : Option Int) :
    Option ArtifactSchema :=
  getArtifactR
    (.ok (match version with
          | some v => collGetByIds c [mkArtifactKey artifact_id v]
          | none => collGetWhere c [("artifact_id", .s artifact_id)]))
    version

/-- The `ArtifactMetadata(...).model_dump(exclude_none=True)` dict:
field-declaration order, the three `None` optionals excluded. -/
def baseMeta (task_type artifact_type_value : String) (version : Int)
    (status_value created_at : String) : Dict :=
  [("task_type", .s task_type),
   ("artifact_type", .s artifact_type_value),
   ("version", .i version),
   ("status", .s status_value),
   ("created_at", .s created_at)]

/-- `{**base, **{"artifact_id": aid}, **(metadata or {})}` followed by
`{k: v for k, v in ….items() if v is not None}`. -/
def combineMeta (bm : Dict) (artifact_id : String) (md : Dict) : Dict :=
  dictFilter (fun _ v => v ≠ .null)
    (dictMerge (dictMerge bm [("artifact_id", .s artifact_id)]) md)

/-- The record written by `add_artifact`/`update_artifact`. -/
def newRec (emb : String → List Int) (artifact_id : String) (version : Int)
    (task_type artifact_type_value : String) (content now : String) (md : Dict) : Rec :=
  ⟨mkArtifactKey artifact_id version, content, emb content,
   combineMeta (baseMeta task_type artifact_type_value version "active" now) artifact_id md⟩

/-- `add_artifact`: `now` is the wall-clock timestamp, `genId` the
freshly generated UUID used when `artifact_id` is absent or falsy
(`if not artifact_id`). Returns the new collection state and the
returned view (whose `metadata` is the raw caller map). -/
def add_artifact (emb : String → List Int) (now genId : String) (c : Coll)
    (task_type : String) (artifact_type : ArtifactType) (content : String)
    (md : Dict) (artifact_id? : Option String) : Coll × ArtifactSchema :=
  let aid := match artifact_id? with
    | none => genId
    | some a => if a = "" then genId else a
  let r := newRec emb aid 1 task_type artifact_type.value content now md
  (collAdd c r,
   ⟨aid, task_type, artifact_type, 1, content, md, .active, none, none, none, now⟩)

/-- `update_artifact` with the outcome of each external call supplied:
`getLatest` is what the index returned to the read-latest
`get_artifact` call, `embedRes` the embedding call, `addRes` the
`collection.add` call.  The state component is the collection after
the operation. -/
def update_artifactFull (now : String) (c : Coll)
    (getLatest : Except String (List Rec))
    (embedRes : Except String (List Int)) (addRes : Except String Unit)
    (artifact_id content : String) (md : Dict) :
    Coll × Except StoreError ArtifactSchema :=
  match getArtifactR getLatest none with
  | none => (c, .error (.notFound artifact_id))
  | some latest =>
    let new_version := latest.version + 1
    match embedRes with
    | .error e => (c, .error (.indexErr e))
    | .ok embedding =>
      let combined := combineMeta
        (baseMeta latest.task_type latest.artifact_type.value new_version "active" now)
        artifact_id md
      let doc_id := mkArtifactKey artifact_id new_version
      match addRes with
      | .error e => (c, .error (.indexErr e))
      | .ok _ =>
        (collAdd c ⟨doc_id, content, embedding, combined⟩,
         .ok ⟨artifact_id, latest.task_type, latest.artifact_type, new_version,
              content, md, .active, none, none, none, now⟩)

/-- `update_artifact(artifact_id, content, metadata)` on a collection
state: all external calls succeed with their deterministic outcomes. -/
def update_artifact (emb : String → List Int) (now : String) (c : Coll)
    (artifact_id content : String) (md : Dict) :
    Coll × Except StoreError ArtifactSchema :=
  update_artifactFull now c
    (.ok (collGetWhere c [("artifact_id", .s artifact_id)]))
    (.ok (emb content)) (.ok ()) artifact_id content md

/-- The view returned by `delete_artifact`: the resolved latest view
with `status`/`deprecated_*`/`replacement_id` mutated in place. -/
def archView (latest : ArtifactSchema) (now : String)
    (reason replacement_id : Option String) : ArtifactSchema :=
  { latest with
      status := .archived
      deprecated_at := some now
      deprecated_reason := reason
      replacement_id := replacement_id }

/-- The metadata map written back by `delete_artifact`: the fetched
record's map with `status`, `deprecated_at`, `deprecated_reason`
(possibly `None` — no null-stripping on this path) set, and
`replacement_id` only when supplied (`if replacement_id:`). -/
def archMeta (old : Dict) (now : String) (reason replacement_id : Option String) : Dict :=
  let md := dictInsert old "status" (.s "archived")
  let md := dictInsert md "deprecated_at" (.s now)
  let md := dictInsert md "deprecated_reason"
    (match reason with | some t => .s t | none => .null)
  match replacement_id with
  | some rid => if rid = "" then md else dictInsert md "replacement_id" (.s rid)
  | none => md

/-- `delete_artifact` with outcomes of the external calls supplied:
`getLatest` for the read-latest `get_artifact` call, `getById` for the
direct `collection.get(ids=[doc_id])` fetch (a function of the key,
since the key is computed from the resolved latest), `updateRes` for
the `collection.update` write-back. -/
def delete_artifactFull (now : String) (c : Coll)
    (getLatest : Except String (List Rec))
    (getById : String → Except String (List Rec))
    (updateRes : Except String Unit)
    (artifact_id : String) (reason replacement_id : Option String) :
    Coll × Except StoreError ArtifactSchema :=
  match getArtifactR getLatest none with
  | none => (c, .error (.notFound artifact_id))
  | some latest =>
    let doc_id := mkArtifactKey artifact_id latest.version
    match getById doc_id with
    | .error e => (c, .error (.indexErr e))
    | .ok result =>
      match result with
      | [] => (c, .ok (archView latest now reason replacement_id))
      | r :: _ =>
        match updateRes with
        | .error e => (c, .error (.indexErr e))
        | .ok _ =>
          (collUpdate c doc_id (archMeta r.metadata now reason replacement_id),
           .ok (archView latest now reason replacement_id))

/-- `delete_artifact(artifact_id, reason, replacement_id)` on a
collection state with deterministic external outcomes. -/
def delete_artifact (now : String) (c : Coll) (artifact_id : String)
    (reason replacement_id : Option String) :
    Coll × Except StoreError ArtifactSchema :=
  delete_artifactFull now c
    (.ok (collGetWhere c [("artifact_id", .s artifact_id)]))
    (fun doc_id => .ok (collGetByIds c [doc_id]))
    (.ok ()) artifact_id reason replacement_id

/-- Python `a > b` between two metadata values: numeric when both are
numbers (`bool` counts), lexicographic when both are strings, a
`TypeError` otherwise. -/
def pyGt (a b : MVal) : Except Unit Bool :=
  match toNum a, toNum b with
  | some x, some y => .ok (decide (y < x))
  | _, _ =>
    match a, b with
    | .s x, .s y => .ok (decide (y < x))
    | _, _ => .error ()

/-- One step of the `artifacts_by_id` grouping loop of
`list_artifacts`: groups are an insertion-ordered map from the raw
`artifact_id` metadata value to the currently winning
(`version` value, record) pair. -/
def groupStep (groups : List (MVal × MVal × Rec)) (r : Rec) :
    Except Unit (List (MVal × MVal × Rec)) :=
  match dictGet? r.metadata "artifact_id", dictGet? r.metadata "version" with
  | some aid, some ver =>
    match groups.find? (fun g => g.1 = aid) with
    | none => .ok (groups ++ [(aid, ver, r)])
    | some g =>
      match pyGt ver g.2.1 with
      | .error e => .error e
      | .ok true =>
        .ok (groups.map (fun g' => if g'.1 = aid then (aid, ver, r) else g'))
      | .ok false => .ok groups
  | _, _ => .error ()

/-- The grouping loop over all fetched records. -/
def groupFold (groups : List (MVal × MVal × Rec)) :
    List Rec → Except Unit (List (MVal × MVal × Rec))
  | [] => .ok groups
  | r :: rs =>
    match groupStep groups r with
    | .error e => .error e
    | .ok groups' => groupFold groups' rs

/-- The conjunction of equality conditions built by `list_artifacts`
(`status` always; `task_type`/`artifact_type` when truthy). -/
def listConds (task_type : Option String) (artifact_type : Option ArtifactType)
    (status : ArtifactStatus) : List (String × MVal) :=
  [("status", .s status.value)]
    ++ (match task_type with
        | some t => if t = "" then [] else [("task_type", .s t)]
        | none => [])
    ++ (match artifact_type with
        | some a => [("artifact_type", .s a.value)]
        | none => [])

/-- The result-building loop of `list_artifacts`: reconstruct the
domain view of each kept record, in insertion order of the groups. -/
def viewsOf : List (MVal × MVal × Rec) → Except Unit (List ArtifactSchema)
  | [] => .ok []
  | g :: gs =>
    match mkSchema g.2.2 with
    | .error e => .error e
    | .ok s =>
      match viewsOf gs with
      | .error e => .error e
      | .ok ss => .ok (s :: ss)

/-- `list_artifacts(task_type, artifact_type, status)`: one filtered
index read, the grouping loop, then view reconstruction of each kept
record (exceptions propagate — there is no `try` on this path). -/
def list_artifacts (c : Coll) (task_type : Option String)
    (artifact_type : Option ArtifactType) (status : ArtifactStatus) :
    Except Unit (List ArtifactSchema) :=
  let result := collGetWhere c (listConds task_type artifact_type status)
  match groupFold [] result with
  | .error e => .error e
  | .ok groups => viewsOf groups

/-! ## Association-list (Python dict) lemmas -/

/-- Keys of a metadata map. -/
def dictKeys (d : Dict) : List String := d.map Prod.fst

/-- A well-formed Python dict has pairwise-distinct keys. -/
def wfDict (d : Dict) : Prop := (dictKeys d).Nodup

instance (d : Dict) : Decidable (wfDict d) := by
  unfold wfDict; infer_instance

/-- A caller metadata map is reserved-free when it binds none of the
reserved field names. -/
def NoReserved (md : Dict) : Prop :=
  ∀ k ∈ standardFields, dictGet? md k = none

instance (md : Dict) : Decidable (NoReserved md) := by
  unfold NoReserved
  exact List.decidableBAll _ _

/-- The `artifact_id` metadata field of a record. -/
def aidOf (r : Rec) : Option MVal := dictGet? r.metadata "artifact_id"

/-- The `version` metadata field of a record. -/
def verOf (r : Rec) : Option MVal := dictGet? r.metadata "version"

/-- The integer version of a record (`0` when absent or non-integer). -/
def verD (r : Rec) : Int :=
  match verOf r with
  | some (.i n) => n
  | _ => 0

/-- A record carries an integer `version` field. -/
def WfVer (r : Rec) : Prop := ∃ n : Int, verOf r = some (.i n)

/-- Invariant of the `artifacts_by_id` grouping loop of
`list_artifacts`: the group list `G` summarises the processed records
`P` — distinct group keys, every group entry holds its record's
`artifact_id`/`version` fields and a processed record, every processed
record's `artifact_id` is a group key, and a group whose stored
version is numeric dominates the numeric versions of all processed
records of its key. -/
def GroupInv (P : List Rec) (G : List (MVal × MVal × Rec)) : Prop :=
  (G.map (fun g => g.1)).Nodup ∧
  (∀ g ∈ G, aidOf g.2.2 = some g.1 ∧ verOf g.2.2 = some g.2.1 ∧ g.2.2 ∈ P) ∧
  (∀ r ∈ P, ∃ g ∈ G, aidOf r = some g.1) ∧
  (∀ g ∈ G, ∀ n : Int, toNum g.2.1 = some n →
    ∀ r ∈ P, aidOf r = some g.1 →
      ∃ v m, verOf r = some v ∧ toNum v = some m ∧ m ≤ n)


theorem dictGet_nil (k : String) : dictGet? [] k = none := rfl

theorem dictGet_cons (p : String × MVal) (d : Dict) (k : String) :
    dictGet? (p :: d) k = if p.1 = k then some p.2 else dictGet? d k := by
  by_cases h : p.1 = k
  · simp [dictGet?, List.find?_cons_of_pos, h]
  · simp [dictGet?, List.find?_cons_of_neg, h]

theorem dictGet_append (a b : Dict) (k : String) :
    dictGet? (a ++ b) k =
      match dictGet? a k with
      | some v => some v
      | none => dictGet? b k := by
  induction a with
  | nil => simp [dictGet_nil]
  | cons p ps ih =>
    by_cases h : p.1 = k
    · simp [dictGet_cons, h]
    · simp only [List.cons_append, dictGet_cons, if_neg h, ih]

theorem dictGet_eq_none_of_not_any (d : Dict) (k : String)
    (h : ¬ d.any (fun p => p.1 = k)) : dictGet? d k = none := by
  induction d with
  | nil => rfl
  | cons p ps ih =>
    simp only [List.any_cons, Bool.or_eq_true, decide_eq_true_eq, not_or] at h
    rw [dictGet_cons, if_neg h.1]
    exact ih h.2

theorem dictGet_map_update (d : Dict) (k k' : String) (v : MVal) :
    dictGet? (d.map (fun p => if p.1 = k then (k, v) else p)) k' =
      if k' = k then (dictGet? d k).map (fun _ => v) else dictGet? d k' := by
  induction d with
  | nil => by_cases hk : k' = k <;> simp [hk, dictGet_nil]
  | cons p ps ih =>
    by_cases hp : p.1 = k
    · by_cases hk : k' = k
      · subst hk
        simp [dictGet_cons, hp, ih]
      · simp only [List.map_cons, if_pos hp, dictGet_cons, ih, if_neg hk]
        rw [if_neg (fun hh => hk hh.symm), if_neg (fun hh : p.1 = k' => hk (hp ▸ hh).symm)]
    · by_cases hk : k' = k
      · subst hk
        simp only [List.map_cons, if_neg hp, dictGet_cons, ih, if_pos rfl]
      · simp only [List.map_cons, if_neg hp, dictGet_cons, ih, if_neg hk]

theorem dictGet_isSome_of_any (d : Dict) (k : String)
    (h : d.any (fun p => p.1 = k)) : ∃ w, dictGet? d k = some w := by
  induction d with
  | nil => simp at h
  | cons p ps ih =>
    by_cases hp : p.1 = k
    · exact ⟨p.2, by rw [dictGet_cons, if_pos hp]⟩
    · simp only [List.any_cons, Bool.or_eq_true, decide_eq_true_eq, hp, false_or] at h
      obtain ⟨w, hw⟩ := ih h
      exact ⟨w, by rw [dictGet_cons, if_neg hp]; exact hw⟩

theorem dictGet_insert (d : Dict) (k : String) (v : MVal) (k' : String) :
    dictGet? (dictInsert d k v) k' = if k' = k then some v else dictGet? d k' := by
  unfold dictInsert
  by_cases hany : d.any (fun p => p.1 = k)
  · rw [if_pos hany, dictGet_map_update]
    by_cases hk : k' = k
    · subst hk
      obtain ⟨w, hw⟩ := dictGet_isSome_of_any d k' hany
      simp [hw]
    · simp [hk]
  · rw [if_neg hany, dictGet_append]
    by_cases hk : k' = k
    · subst hk
      rw [dictGet_eq_none_of_not_any d k' hany]
      simp [dictGet_cons]
    · cases h : dictGet? d k' with
      | some w => simp [h, hk]
      | none => simp [h, hk, dictGet_cons, dictGet_nil, Ne.symm hk]

theorem dictGet_merge_none (b : Dict) (k : String) (h : dictGet? b k = none) :
    ∀ a : Dict, dictGet? (dictMerge a b) k = dictGet? a k := by
  induction b with
  | nil => intro a; rfl
  | cons p ps ih =>
    intro a
    rw [dictGet_cons] at h
    by_cases hp : p.1 = k
    · rw [if_pos hp] at h; exact absurd h (by simp)
    · rw [if_neg hp] at h
      show dictGet? (dictMerge (dictInsert a p.1 p.2) ps) k = dictGet? a k
      rw [ih h, dictGet_insert, if_neg (fun hh => hp hh.symm)]

theorem dictGet_merge_some (b : Dict) (k : String) (v : MVal)
    (hnd : wfDict b) (h : dictGet? b k = some v) :
    ∀ a : Dict, dictGet? (dictMerge a b) k = some v := by
  induction b with
  | nil => intro a; simp [dictGet_nil] at h
  | cons p ps ih =>
    intro a
    rw [dictGet_cons] at h
    have hnd' : wfDict ps := (List.nodup_cons.mp hnd).2
    by_cases hp : p.1 = k
    · rw [if_pos hp] at h
      have hkps : dictGet? ps k = none := by
        apply dictGet_eq_none_of_not_any
        intro hany
        obtain ⟨q, hq, hqk⟩ := List.any_eq_true.mp hany
        exact (List.nodup_cons.mp hnd).1
          (hp ▸ (by simpa using hqk : q.1 = k) ▸ List.mem_map_of_mem Prod.fst hq)
      show dictGet? (dictMerge (dictInsert a p.1 p.2) ps) k = some v
      rw [dictGet_merge_none ps k hkps, dictGet_insert, if_pos hp.symm, h]
    · rw [if_neg hp] at h
      exact ih hnd' h _

theorem dictGet_filter_none (p : String → MVal → Bool) (d : Dict) (k : String)
    (h : dictGet? d k = none) : dictGet? (dictFilter p d) k = none := by
  induction d with
  | nil => rfl
  | cons q qs ih =>
    rw [dictGet_cons] at h
    by_cases hq : q.1 = k
    · rw [if_pos hq] at h; exact absurd h (by simp)
    · rw [if_neg hq] at h
      unfold dictFilter at *
      cases hpq : p q.1 q.2 with
      | true => rw [List.filter_cons_of_pos (by simpa using hpq), dictGet_cons, if_neg hq]; exact ih h
      | false => rw [List.filter_cons_of_neg (by simpa using hpq)]; exact ih h

theorem dictGet_filter_some_true (p : String → MVal → Bool) (d : Dict) (k : String) (v : MVal)
    (h : dictGet? d k = some v) (hp : p k v = true) :
    dictGet? (dictFilter p d) k = some v := by
  induction d with
  | nil => simp [dictGet_nil] at h
  | cons q qs ih =>
    rw [dictGet_cons] at h
    by_cases hq : q.1 = k
    · rw [if_pos hq] at h
      injection h with h2
      unfold dictFilter
      rw [List.filter_cons_of_pos (by simp [hq, h2, hp]), dictGet_cons, if_pos hq, h2]
    · rw [if_neg hq] at h
      unfold dictFilter at *
      cases hpq : p q.1 q.2 with
      | true => rw [List.filter_cons_of_pos (by simpa using hpq), dictGet_cons, if_neg hq]; exact ih h
      | false => rw [List.filter_cons_of_neg (by simpa using hpq)]; exact ih h

theorem dictGet_filter_some_false (p : String → MVal → Bool) (d : Dict) (k : String) (v : MVal)
    (hnd : wfDict d) (h : dictGet? d k = some v) (hp : p k v = false) :
    dictGet? (dictFilter p d) k = none := by
  induction d with
  | nil => simp [dictGet_nil] at h
  | cons q qs ih =>
    rw [dictGet_cons] at h
    have hnd' : wfDict qs := (List.nodup_cons.mp hnd).2
    by_cases hq : q.1 = k
    · rw [if_pos hq] at h
      injection h with h2
      have hkqs : dictGet? qs k = none := by
        apply dictGet_eq_none_of_not_any
        intro hany
        obtain ⟨q', hq', hqk⟩ := List.any_eq_true.mp hany
        exact (List.nodup_cons.mp hnd).1
          (hq ▸ (by simpa using hqk : q'.1 = k) ▸ List.mem_map_of_mem Prod.fst hq')
      unfold dictFilter
      rw [List.filter_cons_of_neg (by simp [hq, h2, hp])]
      exact dictGet_filter_none p qs k hkqs
    · rw [if_neg hq] at h
      unfold dictFilter at *
      cases hpq : p q.1 q.2 with
      | true =>
        rw [List.filter_cons_of_pos (by simpa using hpq), dictGet_cons, if_neg hq]
        exact ih hnd' h
      | false => rw [List.filter_cons_of_neg (by simpa using hpq)]; exact ih hnd' h

theorem dictKeys_insert_of_any (d : Dict) (k : String) (v : MVal)
    (h : d.any (fun p => p.1 = k)) : dictKeys (dictInsert d k v) = dictKeys d := by
  unfold dictInsert dictKeys
  rw [if_pos h, List.map_map]
  apply List.map_congr_left
  intro q _
  by_cases hq : q.1 = k
  · simp [hq]
  · simp [hq]

theorem dictKeys_insert_of_not_any (d : Dict) (k : String) (v : MVal)
    (h : ¬ d.any (fun p => p.1 = k)) :
    dictKeys (dictInsert d k v) = dictKeys d ++ [k] := by
  unfold dictInsert dictKeys
  rw [if_neg h, List.map_append]
  rfl

theorem wfDict_insert (d : Dict) (k : String) (v : MVal) (h : wfDict d) :
    wfDict (dictInsert d k v) := by
  by_cases hany : d.any (fun p => p.1 = k)
  · unfold wfDict
    rw [dictKeys_insert_of_any d k v hany]
    exact h
  · unfold wfDict
    rw [dictKeys_insert_of_not_any d k v hany]
    have hk : k ∉ dictKeys d := by
      intro hmem
      obtain ⟨q, hq, hqk⟩ := List.mem_map.mp hmem
      exact hany (List.any_eq_true.mpr ⟨q, hq, by simp [hqk]⟩)
    rw [List.nodup_append]
    refine ⟨h, List.nodup_singleton k, ?_⟩
    intro a ha hb
    simp only [List.mem_singleton] at hb
    exact hk (hb ▸ ha)

theorem wfDict_merge (b : Dict) : ∀ a : Dict, wfDict a → wfDict (dictMerge a b) := by
  induction b with
  | nil => intro a ha; exact ha
  | cons p ps ih =>
    intro a ha
    exact ih (dictInsert a p.1 p.2) (wfDict_insert a p.1 p.2 ha)

theorem dictMerge_single (a : Dict) (k : String) (v : MVal) :
    dictMerge a [(k, v)] = dictInsert a k v := rfl

theorem combineMeta_get_left (bm : Dict) (aid : String) (md : Dict) (k : String) (v : MVal)
    (hmd : dictGet? md k = none)
    (hbm : dictGet? (dictInsert bm "artifact_id" (.s aid)) k = some v)
    (hnv : v ≠ .null) :
    dictGet? (combineMeta bm aid md) k = some v := by
  unfold combineMeta
  rw [dictMerge_single]
  apply dictGet_filter_some_true
  · rw [dictGet_merge_none md k hmd, hbm]
  · simp [hnv]

theorem combineMeta_get_left_none (bm : Dict) (aid : String) (md : Dict) (k : String)
    (hmd : dictGet? md k = none)
    (hbm : dictGet? (dictInsert bm "artifact_id" (.s aid)) k = none) :
    dictGet? (combineMeta bm aid md) k = none := by
  unfold combineMeta
  rw [dictMerge_single]
  apply dictGet_filter_none
  rw [dictGet_merge_none md k hmd, hbm]

theorem combineMeta_get_right (bm : Dict) (aid : String) (md : Dict) (k : String) (v : MVal)
    (hnd : wfDict md) (hmd : dictGet? md k = some v) (hnv : v ≠ .null) :
    dictGet? (combineMeta bm aid md) k = some v := by
  unfold combineMeta
  rw [dictMerge_single]
  apply dictGet_filter_some_true
  · exact dictGet_merge_some md k v hnd hmd _
  · simp [hnv]

theorem combineMeta_get_right_null (bm : Dict) (aid : String) (md : Dict) (k : String)
    (hwfb : wfDict bm) (hnd : wfDict md) (hmd : dictGet? md k = some .null) :
    dictGet? (combineMeta bm aid md) k = none := by
  unfold combineMeta
  rw [dictMerge_single]
  apply dictGet_filter_some_false _ _ _ .null
  · exact wfDict_merge md _ (wfDict_insert bm "artifact_id" (.s aid) hwfb)
  · exact dictGet_merge_some md k .null hnd hmd _
  · simp

theorem wfDict_baseMeta (tt atv : String) (ver : Int) (stv now : String) :
    wfDict (baseMeta tt atv ver stv now) := by
  unfold wfDict dictKeys baseMeta
  simp

/-! ### Lookups into the metadata written by `add_artifact`/`update_artifact` -/

theorem newRecGet_aid (emb : String → List Int) (aid : String) (ver : Int)
    (tt atv content now : String) (md : Dict) (h : NoReserved md) :
    dictGet? (newRec emb aid ver tt atv content now md).metadata "artifact_id" = some (.s aid) := by
  unfold newRec
  exact combineMeta_get_left _ _ _ _ _ (h "artifact_id" (by simp [standardFields]))
    (by rw [dictGet_insert, if_pos rfl]) (by simp)

theorem newRecGet_task_type (emb : String → List Int) (aid : String) (ver : Int)
    (tt atv content now : String) (md : Dict) (h : NoReserved md) :
    dictGet? (newRec emb aid ver tt atv content now md).metadata "task_type" = some (.s tt) := by
  unfold newRec
  refine combineMeta_get_left _ _ _ _ _ (h "task_type" (by simp [standardFields])) ?_ (by simp)
  rw [dictGet_insert, if_neg (by simp)]
  simp [baseMeta, dictGet_cons]

theorem newRecGet_artifact_type (emb : String → List Int) (aid : String) (ver : Int)
    (tt atv content now : String) (md : Dict) (h : NoReserved md) :
    dictGet? (newRec emb aid ver tt atv content now md).metadata "artifact_type" = some (.s atv) := by
  unfold newRec
  refine combineMeta_get_left _ _ _ _ _ (h "artifact_type" (by simp [standardFields])) ?_ (by simp)
  rw [dictGet_insert, if_neg (by simp)]
  simp [baseMeta, dictGet_cons]

theorem newRecGet_version (emb : String → List Int) (aid : String) (ver : Int)
    (tt atv content now : String) (md : Dict) (h : NoReserved md) :
    dictGet? (newRec emb aid ver tt atv content now md).metadata "version" = some (.i ver) := by
  unfold newRec
  refine combineMeta_get_left _ _ _ _ _ (h "version" (by simp [standardFields])) ?_ (by simp)
  rw [dictGet_insert, if_neg (by simp)]
  simp [baseMeta, dictGet_cons]

theorem newRecGet_status (emb : String → List Int) (aid : String) (ver : Int)
    (tt atv content now : String) (md : Dict) (h : NoReserved md) :
    dictGet? (newRec emb aid ver tt atv content now md).metadata "status" = some (.s "active") := by
  unfold newRec
  refine combineMeta_get_left _ _ _ _ _ (h "status" (by simp [standardFields])) ?_ (by simp)
  rw [dictGet_insert, if_neg (by simp)]
  simp [baseMeta, dictGet_cons]

theorem newRecGet_created_at (emb : String → List Int) (aid : String) (ver : Int)
    (tt atv content now : String) (md : Dict) (h : NoReserved md) :
    dictGet? (newRec emb aid ver tt atv content now md).metadata "created_at" = some (.s now) := by
  unfold newRec
  refine combineMeta_get_left _ _ _ _ _ (h "created_at" (by simp [standardFields])) ?_ (by simp)
  rw [dictGet_insert, if_neg (by simp)]
  simp [baseMeta, dictGet_cons]

theorem newRecGet_deprecated_at (emb : String → List Int) (aid : String) (ver : Int)
    (tt atv content now : String) (md : Dict) (h : NoReserved md) :
    dictGet? (newRec emb aid ver tt atv content now md).metadata "deprecated_at" = none := by
  unfold newRec
  refine combineMeta_get_left_none _ _ _ _ (h "deprecated_at" (by simp [standardFields])) ?_
  rw [dictGet_insert, if_neg (by simp)]
  simp [baseMeta, dictGet_cons, dictGet_nil]

theorem newRecGet_deprecated_reason (emb : String → List Int) (aid : String) (ver : Int)
    (tt atv content now : String) (md : Dict) (h : NoReserved md) :
    dictGet? (newRec emb aid ver tt atv content now md).metadata "deprecated_reason" = none := by
  unfold newRec
  refine combineMeta_get_left_none _ _ _ _ (h "deprecated_reason" (by simp [standardFields])) ?_
  rw [dictGet_insert, if_neg (by simp)]
  simp [baseMeta, dictGet_cons, dictGet_nil]

theorem newRecGet_replacement_id (emb : String → List Int) (aid : String) (ver : Int)
    (tt atv content now : String) (md : Dict) (h : NoReserved md) :
    dictGet? (newRec emb aid ver tt atv content now md).metadata "replacement_id" = none := by
  unfold newRec
  refine combineMeta_get_left_none _ _ _ _ (h "replacement_id" (by simp [standardFields])) ?_
  rw [dictGet_insert, if_neg (by simp)]
  simp [baseMeta, dictGet_cons, dictGet_nil]

/-- The domain view reconstructed from a record written by the store
(reserved-free caller metadata). -/
theorem mkSchema_newRec (emb : String → List Int) (aid : String) (ver : Int)
    (tt : String) (at_ : ArtifactType) (content now : String) (md : Dict)
    (h : NoReserved md) :
    mkSchema (newRec emb aid ver tt at_.value content now md) =
      .ok ⟨aid, tt, at_, ver, content,
           customOf (newRec emb aid ver tt at_.value content now md).metadata,
           .active, none, none, none, now⟩ := by
  unfold mkSchema
  rw [newRecGet_aid emb aid ver tt at_.value content now md h,
      newRecGet_task_type emb aid ver tt at_.value content now md h,
      newRecGet_artifact_type emb aid ver tt at_.value content now md h,
      newRecGet_version emb aid ver tt at_.value content now md h,
      newRecGet_status emb aid ver tt at_.value content now md h,
      newRecGet_created_at emb aid ver tt at_.value content now md h,
      newRecGet_deprecated_at emb aid ver tt at_.value content now md h,
      newRecGet_deprecated_reason emb aid ver tt at_.value content now md h,
      newRecGet_replacement_id emb aid ver tt at_.value content now md h]
  cases at_ <;> rfl

theorem reqStr_ok (o : Option MVal) (t : String) (h : reqStr o = .ok t) :
    o = some (.s t) := by
  match o with
  | none => exact absurd h (by simp [reqStr])
  | some (.s u) =>
    unfold reqStr at h
    injection h with h2
    rw [h2]
  | some (.i n) => exact absurd h (by simp [reqStr])
  | some (.b v) => exact absurd h (by simp [reqStr])
  | some .null => exact absurd h (by simp [reqStr])

theorem reqInt_ok (o : Option MVal) (n : Int) (h : reqInt o = .ok n) :
    o = some (.i n) := by
  match o with
  | none => exact absurd h (by simp [reqInt])
  | some (.s u) => exact absurd h (by simp [reqInt])
  | some (.i m) =>
    unfold reqInt at h
    injection h with h2
    rw [h2]
  | some (.b v) => exact absurd h (by simp [reqInt])
  | some .null => exact absurd h (by simp [reqInt])

theorem parseStatus_ok (o : Option MVal) (st : ArtifactStatus)
    (h : parseStatus o = .ok st) : o = some (.s st.value) := by
  unfold parseStatus at h
  split at h
  · injection h with h2; subst h2; rfl
  · injection h with h2; subst h2; rfl
  · injection h with h2; subst h2; rfl
  · exact absurd h (by simp)

theorem parseType_ok (o : Option MVal) (a : ArtifactType)
    (h : parseType o = .ok a) : o = some (.s a.value) := by
  unfold parseType at h
  split at h
  · injection h with h2; subst h2; rfl
  · injection h with h2; subst h2; rfl
  · injection h with h2; subst h2; rfl
  · injection h with h2; subst h2; rfl
  · exact absurd h (by simp)

/-- A successfully reconstructed view determines the record's
`artifact_id`, `version` and `status` metadata fields. -/
theorem mkSchema_ok_fields (r : Rec) (s : ArtifactSchema) (h : mkSchema r = .ok s) :
    aidOf r = some (.s s.artifact_id) ∧ verOf r = some (.i s.version) ∧
      dictGet? r.metadata "status" = some (.s s.status.value) := by
  unfold mkSchema at h
  simp only [bind, Except.bind] at h
  rcases ha : reqStr (dictGet? r.metadata "artifact_id") with e | aid <;> rw [ha] at h
  · exact absurd h (by simp)
  rcases ht : reqStr (dictGet? r.metadata "task_type") with e | tt <;> rw [ht] at h
  · exact absurd h (by simp)
  rcases hat : parseType (dictGet? r.metadata "artifact_type") with e | at_ <;> rw [hat] at h
  · exact absurd h (by simp)
  rcases hv : reqInt (dictGet? r.metadata "version") with e | ver <;> rw [hv] at h
  · exact absurd h (by simp)
  rcases hst : parseStatus (dictGet? r.metadata "status") with e | st <;> rw [hst] at h
  · exact absurd h (by simp)
  rcases hda : parseDepAt (dictGet? r.metadata "deprecated_at") with e | da <;> rw [hda] at h
  · exact absurd h (by simp)
  rcases hdr : parseOptStr (dictGet? r.metadata "deprecated_reason") with e | dr <;> rw [hdr] at h
  · exact absurd h (by simp)
  rcases hri : parseOptStr (dictGet? r.metadata "replacement_id") with e | ri <;> rw [hri] at h
  · exact absurd h (by simp)
  rcases hca : reqStr (dictGet? r.metadata "created_at") with e | ca <;> rw [hca] at h
  · exact absurd h (by simp)
  injection h with h2
  subst h2
  exact ⟨reqStr_ok _ _ ha, reqInt_ok _ _ hv, parseStatus_ok _ _ hst⟩

/-- Membership in a `where`-filtered index read. -/
theorem mem_collGetWhere (c : Coll) (conds : List (String × MVal)) (r : Rec) :
    r ∈ collGetWhere c conds ↔
      r ∈ c ∧ ∀ kv ∈ conds, dictGet? r.metadata kv.1 = some kv.2 := by
  unfold collGetWhere
  rw [List.mem_filter]
  simp

/-- Membership in an `ids`-filtered index read. -/
theorem mem_collGetByIds (c : Coll) (ids : List String) (r : Rec) :
    r ∈ collGetByIds c ids ↔ r ∈ c ∧ r.id ∈ ids := by
  unfold collGetByIds
  rw [List.mem_filter]
  simp

/-- The latest-version scan: on records that all carry integer
versions, it succeeds and returns either the seed (when nothing beats
the running version) or a member achieving the strict maximum. -/
theorem pickLatest_spec (l : List Rec) :
    ∀ (best : Rec) (bestv : Int), (∀ r ∈ l, WfVer r) →
      ∃ r, pickLatest l best bestv = .ok r ∧
        ((r = best ∧ ∀ r' ∈ l, verD r' ≤ bestv) ∨
         (r ∈ l ∧ bestv < verD r ∧ ∀ r' ∈ l, verD r' ≤ verD r)) := by
  induction l with
  | nil =>
    intro best bestv _
    exact ⟨best, rfl, Or.inl ⟨rfl, by simp⟩⟩
  | cons r rs ih =>
    intro best bestv hwf
    obtain ⟨n, hn⟩ := hwf r (List.mem_cons_self r rs)
    have hn' : dictGet? r.metadata "version" = some (MVal.i n) := hn
    have hstep : pickLatest (r :: rs) best bestv =
        if bestv < n then pickLatest rs r n else pickLatest rs best bestv := by
      simp only [pickLatest, hn', toNum]
    have hrd : verD r = n := by unfold verD; rw [hn]
    by_cases hlt : bestv < n
    · rw [hstep, if_pos hlt]
      obtain ⟨r2, hr2, hcase⟩ := ih r n (fun r' hr' => hwf r' (List.mem_cons_of_mem r hr'))
      refine ⟨r2, hr2, Or.inr ?_⟩
      rcases hcase with ⟨heq, hall⟩ | ⟨hmem, hgt, hall⟩
      · refine ⟨heq ▸ List.mem_cons_self r rs, by rw [heq, hrd]; exact hlt, ?_⟩
        intro r' hr'
        rcases List.mem_cons.mp hr' with h1 | h1
        · rw [h1, heq]
        · rw [heq]
          exact le_trans (hall r' h1) (le_of_eq hrd.symm)
      · refine ⟨List.mem_cons_of_mem r hmem, lt_trans hlt hgt, ?_⟩
        intro r' hr'
        rcases List.mem_cons.mp hr' with h1 | h1
        · subst h1; rw [hrd]; exact le_of_lt hgt
        · exact hall r' h1
    · rw [hstep, if_neg hlt]
      obtain ⟨r2, hr2, hcase⟩ := ih best bestv (fun r' hr' => hwf r' (List.mem_cons_of_mem r hr'))
      refine ⟨r2, hr2, ?_⟩
      rcases hcase with ⟨heq, hall⟩ | ⟨hmem, hgt, hall⟩
      · refine Or.inl ⟨heq, ?_⟩
        intro r' hr'
        rcases List.mem_cons.mp hr' with h1 | h1
        · subst h1; rw [hrd]; exact le_of_not_lt hlt
        · exact hall r' h1
      · refine Or.inr ⟨List.mem_cons_of_mem r hmem, hgt, ?_⟩
        intro r' hr'
        rcases List.mem_cons.mp hr' with h1 | h1
        · subst h1; rw [hrd]; exact le_trans (le_of_not_lt hlt) (le_of_lt hgt)
        · exact hall r' h1

theorem mkArtifactKey_ne21 (aid : String) : mkArtifactKey aid 2 ≠ mkArtifactKey aid 1 := by
  unfold mkArtifactKey
  intro h
  have h2 := congrArg String.data h
  simp [String.data_append] at h2
  exact absurd h2 (by decide)

/-- Latest-version resolution of `get_artifact` when the filtered read
returns a nonempty set of records with positive integer versions. -/
theorem get_artifact_latest (c : Coll) (aid : String) (r0 : Rec) (rest : List Rec)
    (hr : collGetWhere c [("artifact_id", MVal.s aid)] = r0 :: rest)
    (hwf : ∀ r ∈ r0 :: rest, WfVer r)
    (hpos : ∀ r ∈ r0 :: rest, 1 ≤ verD r) :
    ∃ r ∈ r0 :: rest, (∀ r' ∈ r0 :: rest, verD r' ≤ verD r) ∧
      get_artifact c aid none =
        (match mkSchema r with | .ok s => some s | .error _ => none) := by
  obtain ⟨r, hpick, hcase⟩ := pickLatest_spec (r0 :: rest) r0 0 hwf
  rcases hcase with ⟨heq, hall⟩ | ⟨hmem, hgt, hall⟩
  · exfalso
    have h1 := hpos r0 (List.mem_cons_self r0 rest)
    have h2 := hall r0 (List.mem_cons_self r0 rest)
    omega
  · refine ⟨r, hmem, hall, ?_⟩
    unfold get_artifact getArtifactR
    rw [hr]
    simp only [getArtifactCore]
    rw [hpick]
    cases h2 : mkSchema r <;> simp [h2]

/-- Exact-version resolution of `get_artifact` when the keyed read
returns exactly one record carrying that version. -/
theorem get_artifact_at_version (c : Coll) (aid : String) (v : Int) (r : Rec)
    (hid : collGetByIds c [mkArtifactKey aid v] = [r])
    (hver : verOf r = some (MVal.i v)) :
    get_artifact c aid (some v) =
      (match mkSchema r with | .ok s => some s | .error _ => none) := by
  have hver' : dictGet? r.metadata "version" = some (MVal.i v) := hver
  have hstep : get_artifact c aid (some v) =
      getArtifactCore (collGetByIds c [mkArtifactKey aid v]) (some v) := rfl
  rw [hstep, hid]
  simp only [getArtifactCore, findVer, hver', pyEqInt, toNum, beq_self_eq_true, if_pos]
  cases h2 : mkSchema r <;> simp [h2]

/-! ### The metadata written back by the archive path -/

theorem archMeta_get_reason_none (old : Dict) (now : String) (repl : Option String) :
    dictGet? (archMeta old now none repl) "deprecated_reason" = some MVal.null := by
  simp only [archMeta]
  split
  · split
    · rw [dictGet_insert, if_pos rfl]
    · rw [dictGet_insert, if_neg (by simp), dictGet_insert, if_pos rfl]
  · rw [dictGet_insert, if_pos rfl]

theorem archMeta_get_status (old : Dict) (now : String) (reason repl : Option String) :
    dictGet? (archMeta old now reason repl) "status" = some (MVal.s "archived") := by
  simp only [archMeta]
  split
  · split
    · rw [dictGet_insert, if_neg (by simp), dictGet_insert, if_neg (by simp),
        dictGet_insert, if_pos rfl]
    · rw [dictGet_insert, if_neg (by simp), dictGet_insert, if_neg (by simp),
        dictGet_insert, if_neg (by simp), dictGet_insert, if_pos rfl]
  · rw [dictGet_insert, if_neg (by simp), dictGet_insert, if_neg (by simp),
      dictGet_insert, if_pos rfl]

theorem archMeta_get_deprecated_at (old : Dict) (now : String) (reason repl : Option String) :
    dictGet? (archMeta old now reason repl) "deprecated_at" = some (MVal.s now) := by
  simp only [archMeta]
  split
  · split
    · rw [dictGet_insert, if_neg (by simp), dictGet_insert, if_pos rfl]
    · rw [dictGet_insert, if_neg (by simp), dictGet_insert, if_neg (by simp),
        dictGet_insert, if_pos rfl]
  · rw [dictGet_insert, if_neg (by simp), dictGet_insert, if_pos rfl]

theorem archMeta_get_version (old : Dict) (now : String) (reason repl : Option String) :
    dictGet? (archMeta old now reason repl) "version" = dictGet? old "version" := by
  simp only [archMeta]
  split
  · split
    · rw [dictGet_insert, if_neg (by simp), dictGet_insert, if_neg (by simp),
        dictGet_insert, if_neg (by simp)]
    · rw [dictGet_insert, if_neg (by simp), dictGet_insert, if_neg (by simp),
        dictGet_insert, if_neg (by simp), dictGet_insert, if_neg (by simp)]
  · rw [dictGet_insert, if_neg (by simp), dictGet_insert, if_neg (by simp),
      dictGet_insert, if_neg (by simp)]

theorem archMeta_get_replacement (old : Dict) (now : String) (reason : Option String)
    (rid : String) (h : rid ≠ "") :
    dictGet? (archMeta old now reason (some rid)) "replacement_id" = some (MVal.s rid) := by
  simp only [archMeta]
  rw [if_neg h, dictGet_insert, if_pos rfl]

/-! ## Claim theorems -/

/-- C3: for every `artifact_id` for which `get_artifact` resolves no
latest version, `update_artifact` and `delete_artifact` each raise the
not-found error (the spec's `NotFoundError`) and leave the collection
state unchanged (no write to the index). -/
theorem C3_unknown_id_raises_not_found (emb : String → List Int) (now : String)
    (c : Coll) (aid content : String) (md : Dict) (reason repl : Option String)
    (h : get_artifact c aid none = none) :
    update_artifact emb now c aid content md = (c, .error (.notFound aid)) ∧
    delete_artifact now c aid reason repl = (c, .error (.notFound aid)) := by
  have h' : getArtifactR (.ok (collGetWhere c [("artifact_id", MVal.s aid)])) none
      = none := h
  constructor
  · unfold update_artifact update_artifactFull
    rw [h']
  · unfold delete_artifact delete_artifactFull
    rw [h']

theorem C3_unknown_id_raises_not_found_witness :
    get_artifact [] "ghost" none = none ∧
    update_artifact (fun _ => []) "T" [] "ghost" "x" [] = ([], .error (.notFound "ghost")) ∧
    delete_artifact "T" [] "ghost" none none = ([], .error (.notFound "ghost")) :=
  ⟨rfl,
   (C3_unknown_id_raises_not_found (fun _ => []) "T" [] "ghost" "x" [] none none rfl).1,
   (C3_unknown_id_raises_not_found (fun _ => []) "T" [] "ghost" "x" [] none none rfl).2⟩

/-- C7 counterexample: on a store that does contain artifact `"A"`, an
index exception during the read-latest phase of `update_artifact`
surfaces as the not-found error, not as the index exception — refuting
the claim that a single index-layer exception always propagates
unchanged on the write paths. -/
theorem C7_counterexample :
    (update_artifactFull "T2"
        (add_artifact (fun _ => []) "T1" "G" [] "t" ArtifactType.practice "C" [] (some "A")).1
        (Except.error "boom") (Except.ok []) (Except.ok ()) "A" "C2" []).2
      = Except.error (StoreError.notFound "A") ∧
    (Except.error (StoreError.notFound "A") : Except StoreError ArtifactSchema)
      ≠ Except.error (StoreError.indexErr "boom") := by
  exact ⟨rfl, by simp⟩

/-- C7 (amended): an index exception during the read-latest phase of
`update_artifact`/`delete_artifact` is swallowed by `get_artifact` and
converted into the not-found error with the state unchanged; an index
exception raised by the embedding call, the write-back
`collection.add`/`collection.update` call, or the direct keyed
`collection.get` of the archive path propagates unchanged (as
`indexErr` with the same message). -/
theorem C7_amended_index_error_handling (now : String) (c : Coll) (e : String)
    (aid content : String) (md : Dict) (reason repl : Option String)
    (getLatest : Except String (List Rec)) (latest : ArtifactSchema)
    (embedv : List Int) (getById : String → Except String (List Rec))
    (updRes : Except String Unit) (embedRes : Except String (List Int))
    (addRes : Except String Unit) (r : Rec) (rest : List Rec) :
    (update_artifactFull now c (.error e) embedRes addRes aid content md
        = (c, .error (.notFound aid))) ∧
    (delete_artifactFull now c (.error e) getById updRes aid reason repl
        = (c, .error (.notFound aid))) ∧
    (getArtifactR getLatest none = some latest →
      update_artifactFull now c getLatest (.error e) addRes aid content md
        = (c, .error (.indexErr e))) ∧
    (getArtifactR getLatest none = some latest →
      update_artifactFull now c getLatest (.ok embedv) (.error e) aid content md
        = (c, .error (.indexErr e))) ∧
    (getArtifactR getLatest none = some latest →
      getById (mkArtifactKey aid latest.version) = .error e →
      delete_artifactFull now c getLatest getById updRes aid reason repl
        = (c, .error (.indexErr e))) ∧
    (getArtifactR getLatest none = some latest →
      getById (mkArtifactKey aid latest.version) = .ok (r :: rest) →
      delete_artifactFull now c getLatest getById (.error e) aid reason repl
        = (c, .error (.indexErr e))) := by
  refine ⟨?_, ?_, ?_, ?_, ?_, ?_⟩
  · unfold update_artifactFull
    rfl
  · unfold delete_artifactFull
    rfl
  · intro hlat
    unfold update_artifactFull
    rw [hlat]
  · intro hlat
    unfold update_artifactFull
    rw [hlat]
  · intro hlat hby
    unfold delete_artifactFull
    rw [hlat]
    simp only [hby]
  · intro hlat hby
    unfold delete_artifactFull
    rw [hlat]
    simp only [hby]

theorem C7_amended_index_error_handling_witness :
    (update_artifactFull "T2" [newRec (fun _ => []) "A" 1 "t" "practice" "C" "T1" []]
        (.error "boom") (.ok []) (.ok ()) "A" "C2" []
      = ([newRec (fun _ => []) "A" 1 "t" "practice" "C" "T1" []],
         .error (.notFound "A"))) ∧
    (update_artifactFull "T2" [newRec (fun _ => []) "A" 1 "t" "practice" "C" "T1" []]
        (.ok (collGetWhere [newRec (fun _ => []) "A" 1 "t" "practice" "C" "T1" []]
          [("artifact_id", MVal.s "A")]))
        (.error "boom") (.ok ()) "A" "C2" []
      = ([newRec (fun _ => []) "A" 1 "t" "practice" "C" "T1" []],
         .error (.indexErr "boom"))) ∧
    (delete_artifactFull "T2" [newRec (fun _ => []) "A" 1 "t" "practice" "C" "T1" []]
        (.ok (collGetWhere [newRec (fun _ => []) "A" 1 "t" "practice" "C" "T1" []]
          [("artifact_id", MVal.s "A")]))
        (fun _ => .error "boom") (.ok ()) "A" none none
      = ([newRec (fun _ => []) "A" 1 "t" "practice" "C" "T1" []],
         .error (.indexErr "boom"))) ∧
    (delete_artifactFull "T2" [newRec (fun _ => []) "A" 1 "t" "practice" "C" "T1" []]
        (.ok (collGetWhere [newRec (fun _ => []) "A" 1 "t" "practice" "C" "T1" []]
          [("artifact_id", MVal.s "A")]))
        (fun _ => .ok [newRec (fun _ => []) "A" 1 "t" "practice" "C" "T1" []])
        (.error "boom") "A" none none
      = ([newRec (fun _ => []) "A" 1 "t" "practice" "C" "T1" []],
         .error (.indexErr "boom"))) := by
  have H1 := C7_amended_index_error_handling "T2"
    [newRec (fun _ => []) "A" 1 "t" "practice" "C" "T1" []] "boom" "A" "C2" [] none none
    (.ok (collGetWhere [newRec (fun _ => []) "A" 1 "t" "practice" "C" "T1" []]
      [("artifact_id", MVal.s "A")]))
    ⟨"A", "t", ArtifactType.practice, 1, "C", [], .active, none, none, none, "T1"⟩
    [] (fun _ => .error "boom") (.ok ()) (.ok []) (.ok ())
    (newRec (fun _ => []) "A" 1 "t" "practice" "C" "T1" []) []
  have H2 := C7_amended_index_error_handling "T2"
    [newRec (fun _ => []) "A" 1 "t" "practice" "C" "T1" []] "boom" "A" "C2" [] none none
    (.ok (collGetWhere [newRec (fun _ => []) "A" 1 "t" "practice" "C" "T1" []]
      [("artifact_id", MVal.s "A")]))
    ⟨"A", "t", ArtifactType.practice, 1, "C", [], .active, none, none, none, "T1"⟩
    [] (fun _ => .ok [newRec (fun _ => []) "A" 1 "t" "practice" "C" "T1" []])
    (.error "boom") (.ok []) (.ok ())
    (newRec (fun _ => []) "A" 1 "t" "practice" "C" "T1" []) []
  exact ⟨H1.1, H1.2.2.1 rfl, H1.2.2.2.2.1 rfl rfl, H2.2.2.2.2.2 rfl rfl⟩

/-- The state transition of a successful archive: the keyed fetch
found a record, so the collection is updated in place at that key with
the archive metadata of the first fetched record. -/
theorem delete_artifact_state (now : String) (c : Coll) (aid : String)
    (reason repl : Option String) (latest : ArtifactSchema) (r0 : Rec) (rs : List Rec)
    (hres : get_artifact c aid none = some latest)
    (hby : collGetByIds c [mkArtifactKey aid latest.version] = r0 :: rs) :
    delete_artifact now c aid reason repl =
      (collUpdate c (mkArtifactKey aid latest.version)
        (archMeta r0.metadata now reason repl),
       .ok (archView latest now reason repl)) := by
  have h' : getArtifactR (.ok (collGetWhere c [("artifact_id", MVal.s aid)])) none
      = some latest := hres
  unfold delete_artifact delete_artifactFull
  rw [h']
  simp only [hby]

/-- C10: when `delete_artifact` is called with the `reason` argument
omitted, the metadata map written back to the index maps
`deprecated_reason` to a null value — the null-stripping of the
add/update paths is not applied on the archive path. -/
theorem C10_archive_path_stores_null_reason (now : String) (c : Coll) (aid : String)
    (repl : Option String) (latest : ArtifactSchema)
    (hres : get_artifact c aid none = some latest)
    (hex : ∃ r ∈ c, r.id = mkArtifactKey aid latest.version) :
    ∀ r' ∈ (delete_artifact now c aid none repl).1,
      r'.id = mkArtifactKey aid latest.version →
      dictGet? r'.metadata "deprecated_reason" = some MVal.null := by
  obtain ⟨r, hrmem, hrid⟩ := hex
  cases hby : collGetByIds c [mkArtifactKey aid latest.version] with
  | nil =>
    exfalso
    have : r ∈ collGetByIds c [mkArtifactKey aid latest.version] :=
      (mem_collGetByIds c _ r).mpr ⟨hrmem, by simp [hrid]⟩
    rw [hby] at this
    exact absurd this (List.not_mem_nil r)
  | cons r0 rs =>
    rw [delete_artifact_state now c aid none repl latest r0 rs hres hby]
    intro r' hr' hid
    unfold collUpdate at hr'
    obtain ⟨q, hq, hqeq⟩ := List.mem_map.mp hr'
    by_cases hqid : q.id = mkArtifactKey aid latest.version
    · rw [if_pos hqid] at hqeq
      rw [← hqeq]
      exact archMeta_get_reason_none r0.metadata now repl
    · rw [if_neg hqid] at hqeq
      exact absurd (hqeq ▸ hid) hqid

theorem C10_archive_path_stores_null_reason_witness :
    dictGet?
      (((delete_artifact "T3" [newRec (fun _ => []) "A" 1 "t" "practice" "C" "T1" []]
          "A" none none).1).head (by decide)).metadata "deprecated_reason"
      = some MVal.null := by
  exact C10_archive_path_stores_null_reason "T3"
    [newRec (fun _ => []) "A" 1 "t" "practice" "C" "T1" []] "A" none
    ⟨"A", "t", ArtifactType.practice, 1, "C", [], .active, none, none, none, "T1"⟩
    rfl
    ⟨newRec (fun _ => []) "A" 1 "t" "practice" "C" "T1" [], by simp, rfl⟩
    (((delete_artifact "T3" [newRec (fun _ => []) "A" 1 "t" "practice" "C" "T1" []]
        "A" none none).1).head (by decide))
    (List.head_mem (by decide)) (by decide)

/-- C6: `delete_artifact` on an existing artifact creates no new
record: the collection keeps its length, every record keeps its key,
document and `version` field, records whose key is not the latest
version's key are untouched, and the record stored under the latest
version's key gets `status = "archived"`, a non-null `deprecated_at`
timestamp, and `replacement_id` when supplied; the returned view is
the latest view archived in place with its version unchanged. -/
theorem C6_archive_is_in_place_mutation (now : String) (c : Coll) (aid : String)
    (reason repl : Option String) (latest : ArtifactSchema) (r0 : Rec)
    (hres : get_artifact c aid none = some latest)
    (hby : collGetByIds c [mkArtifactKey aid latest.version] = [r0]) :
    ((delete_artifact now c aid reason repl).1).length = c.length ∧
    (∀ i : Nat,
      (((delete_artifact now c aid reason repl).1).get? i).map Rec.id
        = (c.get? i).map Rec.id ∧
      (((delete_artifact now c aid reason repl).1).get? i).map Rec.document
        = (c.get? i).map Rec.document ∧
      (((delete_artifact now c aid reason repl).1).get? i).map verOf
        = (c.get? i).map verOf) ∧
    (∀ i : Nat, ∀ r r' : Rec, c.get? i = some r →
      ((delete_artifact now c aid reason repl).1).get? i = some r' →
      r.id ≠ mkArtifactKey aid latest.version → r' = r) ∧
    (∀ r' ∈ (delete_artifact now c aid reason repl).1,
      r'.id = mkArtifactKey aid latest.version →
      dictGet? r'.metadata "status" = some (MVal.s "archived") ∧
      dictGet? r'.metadata "deprecated_at" = some (MVal.s now)) ∧
    ((delete_artifact now c aid reason repl).2
      = .ok (archView latest now reason repl)) ∧
    (archView latest now reason repl).version = latest.version ∧
    (archView latest now reason repl).status = .archived ∧
    (archView latest now reason repl).deprecated_at = some now ∧
    (∀ rid : String, repl = some rid → rid ≠ "" →
      ∀ r' ∈ (delete_artifact now c aid reason repl).1,
        r'.id = mkArtifactKey aid latest.version →
        dictGet? r'.metadata "replacement_id" = some (MVal.s rid)) := by
  have hst := delete_artifact_state now c aid reason repl latest r0 [] hres hby
  have hfst : (delete_artifact now c aid reason repl).1
      = collUpdate c (mkArtifactKey aid latest.version)
          (archMeta r0.metadata now reason repl) := by rw [hst]
  have hsnd : (delete_artifact now c aid reason repl).2
      = .ok (archView latest now reason repl) := by rw [hst]
  have hr0 : ∀ r : Rec, r ∈ c → r.id = mkArtifactKey aid latest.version → r = r0 := by
    intro r hrmem hrid
    have : r ∈ collGetByIds c [mkArtifactKey aid latest.version] :=
      (mem_collGetByIds c _ r).mpr ⟨hrmem, by simp [hrid]⟩
    rw [hby] at this
    exact List.mem_singleton.mp this
  refine ⟨?_, ?_, ?_, ?_, hsnd, rfl, rfl, rfl, ?_⟩
  · rw [hfst]
    unfold collUpdate
    exact List.length_map c _
  · intro i
    rw [hfst]
    unfold collUpdate
    rw [List.get?_map]
    cases h : c.get? i with
    | none => exact ⟨rfl, rfl, rfl⟩
    | some r =>
      by_cases hid : r.id = mkArtifactKey aid latest.version
      · have hrr0 : r = r0 := hr0 r (List.get?_mem h) hid
        refine ⟨by simp [hid], by simp [hid], ?_⟩
        simp only [Option.map_some']
        rw [if_pos hid]
        have hv : verOf { r with metadata := archMeta r0.metadata now reason repl }
            = verOf r := by
          unfold verOf
          show dictGet? (archMeta r0.metadata now reason repl) "version"
            = dictGet? r.metadata "version"
          rw [archMeta_get_version, hrr0]
        rw [hv]
      · refine ⟨by simp [hid], by simp [hid], by simp [hid]⟩
  · intro i r r' hci hdi hne
    rw [hfst] at hdi
    unfold collUpdate at hdi
    rw [List.get?_map, hci] at hdi
    simp only [Option.map_some'] at hdi
    rw [if_neg hne] at hdi
    exact (Option.some_inj.mp hdi).symm
  · intro r' hr' hid
    rw [hfst] at hr'
    unfold collUpdate at hr'
    obtain ⟨q, hq, hqeq⟩ := List.mem_map.mp hr'
    by_cases hqid : q.id = mkArtifactKey aid latest.version
    · rw [if_pos hqid] at hqeq
      rw [← hqeq]
      exact ⟨archMeta_get_status r0.metadata now reason repl,
             archMeta_get_deprecated_at r0.metadata now reason repl⟩
    · rw [if_neg hqid] at hqeq
      exact absurd (hqeq ▸ hid) hqid
  · intro rid hrid hne r' hr' hid
    subst hrid
    rw [hfst] at hr'
    unfold collUpdate at hr'
    obtain ⟨q, hq, hqeq⟩ := List.mem_map.mp hr'
    by_cases hqid : q.id = mkArtifactKey aid latest.version
    · rw [if_pos hqid] at hqeq
      rw [← hqeq]
      exact archMeta_get_replacement r0.metadata now reason rid hne
    · rw [if_neg hqid] at hqeq
      exact absurd (hqeq ▸ hid) hqid

theorem C6_archive_is_in_place_mutation_witness :
    (((delete_artifact "T3" [newRec (fun _ => []) "A" 1 "t" "practice" "C" "T1" []]
        "A" (some "why") (some "R")).1).length
      = ([newRec (fun _ => []) "A" 1 "t" "practice" "C" "T1" []] : Coll).length) ∧
    ((((delete_artifact "T3" [newRec (fun _ => []) "A" 1 "t" "practice" "C" "T1" []]
        "A" (some "why") (some "R")).1).get? 0).map verOf
      = (([newRec (fun _ => []) "A" 1 "t" "practice" "C" "T1" []] : Coll).get? 0).map verOf) ∧
    (dictGet? (((delete_artifact "T3" [newRec (fun _ => []) "A" 1 "t" "practice" "C" "T1" []]
        "A" (some "why") (some "R")).1).head (by decide)).metadata "status"
      = some (MVal.s "archived")) ∧
    (dictGet? (((delete_artifact "T3" [newRec (fun _ => []) "A" 1 "t" "practice" "C" "T1" []]
        "A" (some "why") (some "R")).1).head (by decide)).metadata "deprecated_at"
      = some (MVal.s "T3")) ∧
    (dictGet? (((delete_artifact "T3" [newRec (fun _ => []) "A" 1 "t" "practice" "C" "T1" []]
        "A" (some "why") (some "R")).1).head (by decide)).metadata "replacement_id"
      = some (MVal.s "R")) ∧
    ((delete_artifact "T3" [newRec (fun _ => []) "A" 1 "t" "practice" "C" "T1" []]
        "A" (some "why") (some "R")).2
      = .ok (archView
          ⟨"A", "t", ArtifactType.practice, 1, "C", [], .active, none, none, none, "T1"⟩
          "T3" (some "why") (some "R"))) := by
  have H := C6_archive_is_in_place_mutation "T3"
    [newRec (fun _ => []) "A" 1 "t" "practice" "C" "T1" []] "A" (some "why") (some "R")
    ⟨"A", "t", ArtifactType.practice, 1, "C", [], .active, none, none, none, "T1"⟩
    (newRec (fun _ => []) "A" 1 "t" "practice" "C" "T1" []) rfl rfl
  refine ⟨H.1, (H.2.1 0).2.2, ?_, ?_, ?_, H.2.2.2.2.1⟩
  · exact (H.2.2.2.1 _ (List.head_mem (by decide)) (by decide)).1
  · exact (H.2.2.2.1 _ (List.head_mem (by decide)) (by decide)).2
  · exact H.2.2.2.2.2.2.2.2 "R" rfl (by decide) _ (List.head_mem (by decide)) (by decide)

theorem dictGet_filter_implies (p : String → MVal → Bool) (d : Dict) (k : String) (v : MVal)
    (h : dictGet? (dictFilter p d) k = some v) : p k v = true := by
  unfold dictGet? at h
  cases hf : (dictFilter p d).find? (fun q => q.1 = k) with
  | none => rw [hf] at h; simp at h
  | some q =>
    rw [hf] at h
    simp only [Option.map_some'] at h
    have hq1 : q.1 = k := by
      have := List.find?_some hf
      simpa using this
    have hmem := List.mem_of_find?_eq_some hf
    unfold dictFilter at hmem
    have hp := List.of_mem_filter hmem
    rw [hq1] at hp
    injection h with h2
    rw [h2] at hp
    exact hp

theorem combineMeta_no_null (bm : Dict) (aid : String) (md : Dict) (k : String) :
    dictGet? (combineMeta bm aid md) k ≠ some MVal.null := by
  intro h
  unfold combineMeta at h
  have := dictGet_filter_implies _ _ _ _ h
  simp at this

/-- C2 counterexample: a caller-supplied metadata entry whose key is
the reserved field `version` is stored verbatim by `add_artifact` and
overrides the reserved field value (the record is created at version 1
but its stored `version` field reads 7). -/
theorem C2_counterexample :
    dictGet? (((add_artifact (fun _ => []) "T" "G" [] "t" ArtifactType.practice "C"
        [("version", MVal.i 7)] (some "A")).1).head (by decide)).metadata "version"
      = some (MVal.i 7) ∧
    dictGet? (((add_artifact (fun _ => []) "T" "G" [] "t" ArtifactType.practice "C"
        [("version", MVal.i 7)] (some "A")).1).head (by decide)).metadata "version"
      ≠ some (MVal.i 1) := by
  exact ⟨rfl, by decide⟩

/-- C2 (amended): on both write paths the combined metadata is
null-stripped before persistence — the stored record never contains a
null-valued entry; reserved keys are NOT stripped from caller-supplied
metadata: the caller map is merged last, so every non-null
caller-supplied entry (a reserved key included) is stored verbatim,
overriding the reserved field value. -/
theorem C2_amended_nulls_stripped_reserved_overridable (emb : String → List Int)
    (now genId : String) (c : Coll) (tt : String) (at_ : ArtifactType)
    (content : String) (md : Dict) (aid : String)
    (haid : aid ≠ "") (hwf : wfDict md) :
    ((add_artifact emb now genId c tt at_ content md (some aid)).1
      = c ++ [newRec emb aid 1 tt at_.value content now md]) ∧
    (∀ k, dictGet? (newRec emb aid 1 tt at_.value content now md).metadata k
        ≠ some MVal.null) ∧
    (∀ k v, dictGet? md k = some v → v ≠ MVal.null →
      dictGet? (newRec emb aid 1 tt at_.value content now md).metadata k = some v) ∧
    (∀ latest content2, get_artifact c aid none = some latest →
      (update_artifact emb now c aid content2 md).1
        = c ++ [⟨mkArtifactKey aid (latest.version + 1), content2, emb content2,
                 combineMeta (baseMeta latest.task_type latest.artifact_type.value
                   (latest.version + 1) "active" now) aid md⟩] ∧
      (∀ k, dictGet? (combineMeta (baseMeta latest.task_type latest.artifact_type.value
          (latest.version + 1) "active" now) aid md) k ≠ some MVal.null) ∧
      (∀ k v, dictGet? md k = some v → v ≠ MVal.null →
        dictGet? (combineMeta (baseMeta latest.task_type latest.artifact_type.value
          (latest.version + 1) "active" now) aid md) k = some v)) := by
  refine ⟨?_, ?_, ?_, ?_⟩
  · unfold add_artifact
    simp [haid, collAdd]
  · intro k
    exact combineMeta_no_null _ aid md k
  · intro k v hv hnv
    exact combineMeta_get_right _ aid md k v hwf hv hnv
  · intro latest content2 hlat
    have h' : getArtifactR (.ok (collGetWhere c [("artifact_id", MVal.s aid)])) none
        = some latest := hlat
    refine ⟨?_, ?_, ?_⟩
    · unfold update_artifact update_artifactFull
      rw [h']
      rfl
    · intro k
      exact combineMeta_no_null _ aid md k
    · intro k v hv hnv
      exact combineMeta_get_right _ aid md k v hwf hv hnv

theorem C2_amended_nulls_stripped_reserved_overridable_witness :
    ((add_artifact (fun _ => []) "T2" "G"
        [newRec (fun _ => []) "A" 1 "t" "practice" "C" "T1" []]
        "t" ArtifactType.practice "C2"
        [("priority", MVal.s "high"), ("note", MVal.null)] (some "A")).1
      = [newRec (fun _ => []) "A" 1 "t" "practice" "C" "T1" []]
        ++ [newRec (fun _ => []) "A" 1 "t" ArtifactType.practice.value "C2" "T2"
            [("priority", MVal.s "high"), ("note", MVal.null)]]) ∧
    (dictGet? (newRec (fun _ => []) "A" 1 "t" ArtifactType.practice.value "C2" "T2"
        [("priority", MVal.s "high"), ("note", MVal.null)]).metadata "note"
      ≠ some MVal.null) ∧
    (dictGet? (newRec (fun _ => []) "A" 1 "t" ArtifactType.practice.value "C2" "T2"
        [("priority", MVal.s "high"), ("note", MVal.null)]).metadata "priority"
      = some (MVal.s "high")) ∧
    ((update_artifact (fun _ => []) "T2"
        [newRec (fun _ => []) "A" 1 "t" "practice" "C" "T1" []]
        "A" "C2" [("priority", MVal.s "high"), ("note", MVal.null)]).1
      = [newRec (fun _ => []) "A" 1 "t" "practice" "C" "T1" []]
        ++ [⟨mkArtifactKey "A" 2, "C2", [],
             combineMeta (baseMeta "t" "practice" 2 "active" "T2") "A"
               [("priority", MVal.s "high"), ("note", MVal.null)]⟩]) := by
  have H := C2_amended_nulls_stripped_reserved_overridable (fun _ => []) "T2" "G"
    [newRec (fun _ => []) "A" 1 "t" "practice" "C" "T1" []]
    "t" ArtifactType.practice "C2"
    [("priority", MVal.s "high"), ("note", MVal.null)] "A" (by decide) (by decide)
  exact ⟨H.1, H.2.1 "note", H.2.2.1 "priority" (MVal.s "high") rfl (by decide),
    (H.2.2.2 ⟨"A", "t", ArtifactType.practice, 1, "C", [], .active, none, none, none, "T1"⟩
      "C2" rfl).1⟩

theorem collGetWhere_all (c : Coll) (aid : String)
    (h : ∀ r ∈ c, dictGet? r.metadata "artifact_id" = some (MVal.s aid)) :
    collGetWhere c [("artifact_id", MVal.s aid)] = c := by
  unfold collGetWhere
  apply List.filter_eq_self.mpr
  intro r hr
  simp [h r hr]

theorem customOf_get (m : Dict) (k : String) (hk : standardFields.contains k = false) :
    dictGet? (customOf m) k = dictGet? m k := by
  cases h : dictGet? m k with
  | none => unfold customOf; exact dictGet_filter_none _ _ _ h
  | some v =>
    unfold customOf
    refine dictGet_filter_some_true _ _ _ _ h ?_
    have hnm : k ∉ standardFields := by simpa using hk
    simp [hnm]

/-- A key bound in a reserved-free caller map is not a reserved name. -/
theorem not_reserved_of_bound (md : Dict) (k : String) (v : MVal)
    (hnr : NoReserved md) (h : dictGet? md k = some v) :
    standardFields.contains k = false := by
  cases hc : standardFields.contains k with
  | false => rfl
  | true =>
    have hk : k ∈ standardFields := by simpa using hc
    rw [hnr k hk] at h
    exact absurd h (by simp)

/-- Resolution of the freshly added artifact: `get_artifact` on the
one-record store returns the version-1 view. -/
theorem get_artifact_after_add (emb : String → List Int) (now tt : String)
    (at_ : ArtifactType) (content : String) (md : Dict) (aid : String)
    (hnr : NoReserved md) :
    get_artifact [newRec emb aid 1 tt at_.value content now md] aid none =
      some ⟨aid, tt, at_, 1, content,
            customOf (newRec emb aid 1 tt at_.value content now md).metadata,
            .active, none, none, none, now⟩ := by
  have hw : collGetWhere [newRec emb aid 1 tt at_.value content now md]
      [("artifact_id", MVal.s aid)] = [newRec emb aid 1 tt at_.value content now md] := by
    apply collGetWhere_all
    intro r hr
    rw [List.mem_singleton] at hr
    subst hr
    exact newRecGet_aid emb aid 1 tt at_.value content now md hnr
  obtain ⟨r, hmem, hmax, heq⟩ :=
    get_artifact_latest _ aid (newRec emb aid 1 tt at_.value content now md) [] hw
      (by
        intro r hr
        rw [List.mem_singleton] at hr
        subst hr
        exact ⟨1, newRecGet_version emb aid 1 tt at_.value content now md hnr⟩)
      (by
        intro r hr
        rw [List.mem_singleton] at hr
        subst hr
        unfold verD verOf
        rw [newRecGet_version emb aid 1 tt at_.value content now md hnr])
  rw [List.mem_singleton] at hmem
  subst hmem
  rw [heq, mkSchema_newRec emb aid 1 tt at_ content now md hnr]

/-- C9: a null-valued metadata key supplied to `add_artifact` is
absent both from the stored record and from the `custom_metadata` of
the view returned by a subsequent `get_artifact`; every other
(non-reserved) key round-trips through `add_artifact` then
`get_artifact` with its value unchanged. -/
theorem C9_metadata_round_trip (emb : String → List Int) (now genId tt : String)
    (at_ : ArtifactType) (content : String) (md : Dict) (aid : String)
    (haid : aid ≠ "") (hwf : wfDict md) (hnr : NoReserved md) :
    ∃ s : ArtifactSchema,
      get_artifact ((add_artifact emb now genId [] tt at_ content md (some aid)).1)
          aid none = some s ∧
      (∀ k, dictGet? md k = some MVal.null →
        (∀ r ∈ (add_artifact emb now genId [] tt at_ content md (some aid)).1,
            dictGet? r.metadata k = none) ∧
        dictGet? s.metadata k = none) ∧
      (∀ k v, dictGet? md k = some v → v ≠ MVal.null →
        dictGet? s.metadata k = some v) := by
  have hc1 : (add_artifact emb now genId [] tt at_ content md (some aid)).1
      = [newRec emb aid 1 tt at_.value content now md] := by
    unfold add_artifact
    simp [haid, collAdd]
  refine ⟨⟨aid, tt, at_, 1, content,
      customOf (newRec emb aid 1 tt at_.value content now md).metadata,
      .active, none, none, none, now⟩, ?_, ?_, ?_⟩
  · rw [hc1]
    exact get_artifact_after_add emb now tt at_ content md aid hnr
  · intro k hk
    have hstored : dictGet? (newRec emb aid 1 tt at_.value content now md).metadata k
        = none := by
      unfold newRec
      exact combineMeta_get_right_null _ aid md k
        (wfDict_baseMeta tt at_.value 1 "active" now) hwf hk
    constructor
    · intro r hr
      rw [hc1] at hr
      rw [List.mem_singleton] at hr
      subst hr
      exact hstored
    · have hknr : standardFields.contains k = false :=
        not_reserved_of_bound md k _ hnr hk
      show dictGet? (customOf (newRec emb aid 1 tt at_.value content now md).metadata) k
        = none
      rw [customOf_get _ k hknr, hstored]
  · intro k v hv hnv
    have hknr : standardFields.contains k = false :=
      not_reserved_of_bound md k v hnr hv
    show dictGet? (customOf (newRec emb aid 1 tt at_.value content now md).metadata) k
      = some v
    rw [customOf_get _ k hknr]
    unfold newRec
    exact combineMeta_get_right _ aid md k v hwf hv hnv

theorem C9_metadata_round_trip_witness :
    ((get_artifact ((add_artifact (fun _ => []) "T" "G" [] "t" ArtifactType.practice "C"
        [("priority", MVal.s "high"), ("note", MVal.null)] (some "A")).1) "A" none).map
      (fun s => dictGet? s.metadata "priority") = some (some (MVal.s "high"))) ∧
    ((get_artifact ((add_artifact (fun _ => []) "T" "G" [] "t" ArtifactType.practice "C"
        [("priority", MVal.s "high"), ("note", MVal.null)] (some "A")).1) "A" none).map
      (fun s => dictGet? s.metadata "note") = some none) ∧
    (dictGet? (((add_artifact (fun _ => []) "T" "G" [] "t" ArtifactType.practice "C"
        [("priority", MVal.s "high"), ("note", MVal.null)] (some "A")).1).head
        (by decide)).metadata "note" = none) := by
  obtain ⟨s, hs, hnull, hrt⟩ := C9_metadata_round_trip (fun _ => []) "T" "G" "t"
    ArtifactType.practice "C" [("priority", MVal.s "high"), ("note", MVal.null)] "A"
    (by decide) (by decide) (by decide)
  refine ⟨?_, ?_, ?_⟩
  · rw [hs]
    simp only [Option.map_some']
    rw [hrt "priority" (MVal.s "high") rfl (by decide)]
  · rw [hs]
    simp only [Option.map_some']
    rw [(hnull "note" rfl).2]
  · exact (hnull "note" rfl).1 _ (List.head_mem (by decide))

theorem get_artifact_two_versions (emb : String → List Int) (now1 now2 tt : String)
    (at_ : ArtifactType) (C1 C2 : String) (md1 md2 : Dict) (aid : String)
    (hnr1 : NoReserved md1) (hnr2 : NoReserved md2) :
    get_artifact [newRec emb aid 1 tt at_.value C1 now1 md1,
                  newRec emb aid 2 tt at_.value C2 now2 md2] aid none
      = some ⟨aid, tt, at_, 2, C2,
              customOf (newRec emb aid 2 tt at_.value C2 now2 md2).metadata,
              .active, none, none, none, now2⟩ ∧
    get_artifact [newRec emb aid 1 tt at_.value C1 now1 md1,
                  newRec emb aid 2 tt at_.value C2 now2 md2] aid (some 1)
      = some ⟨aid, tt, at_, 1, C1,
              customOf (newRec emb aid 1 tt at_.value C1 now1 md1).metadata,
              .active, none, none, none, now1⟩ := by
  have hv1 : verD (newRec emb aid 1 tt at_.value C1 now1 md1) = 1 := by
    unfold verD verOf
    rw [newRecGet_version emb aid 1 tt at_.value C1 now1 md1 hnr1]
  have hv2 : verD (newRec emb aid 2 tt at_.value C2 now2 md2) = 2 := by
    unfold verD verOf
    rw [newRecGet_version emb aid 2 tt at_.value C2 now2 md2 hnr2]
  constructor
  · have hw : collGetWhere [newRec emb aid 1 tt at_.value C1 now1 md1,
        newRec emb aid 2 tt at_.value C2 now2 md2] [("artifact_id", MVal.s aid)]
        = [newRec emb aid 1 tt at_.value C1 now1 md1,
           newRec emb aid 2 tt at_.value C2 now2 md2] := by
      apply collGetWhere_all
      intro r hr
      rcases List.mem_pair.mp hr with h | h <;> subst h
      · exact newRecGet_aid emb aid 1 tt at_.value C1 now1 md1 hnr1
      · exact newRecGet_aid emb aid 2 tt at_.value C2 now2 md2 hnr2
    obtain ⟨r, hmem, hmax, heq⟩ :=
      get_artifact_latest _ aid (newRec emb aid 1 tt at_.value C1 now1 md1)
        [newRec emb aid 2 tt at_.value C2 now2 md2] hw
        (by
          intro r hr
          rcases List.mem_pair.mp hr with h | h <;> subst h
          · exact ⟨1, newRecGet_version emb aid 1 tt at_.value C1 now1 md1 hnr1⟩
          · exact ⟨2, newRecGet_version emb aid 2 tt at_.value C2 now2 md2 hnr2⟩)
        (by
          intro r hr
          rcases List.mem_pair.mp hr with h | h <;> subst h
          · rw [hv1]
          · rw [hv2]
            omega)
    have hr2 : r = newRec emb aid 2 tt at_.value C2 now2 md2 := by
      rcases List.mem_pair.mp hmem with h | h
      · exfalso
        have h2 := hmax (newRec emb aid 2 tt at_.value C2 now2 md2)
          (List.mem_cons_of_mem _ (List.mem_singleton.mpr rfl))
        rw [hv2, h, hv1] at h2
        omega
      · exact h
    subst hr2
    rw [heq, mkSchema_newRec emb aid 2 tt at_ C2 now2 md2 hnr2]
  · have hid : collGetByIds [newRec emb aid 1 tt at_.value C1 now1 md1,
        newRec emb aid 2 tt at_.value C2 now2 md2] [mkArtifactKey aid 1]
        = [newRec emb aid 1 tt at_.value C1 now1 md1] := by
      unfold collGetByIds
      rw [List.filter_cons_of_pos (by simp [newRec]),
          List.filter_cons_of_neg (by simp [newRec, mkArtifactKey_ne21 aid])]
      rfl
    rw [get_artifact_at_version _ aid 1 (newRec emb aid 1 tt at_.value C1 now1 md1) hid
      (newRecGet_version emb aid 1 tt at_.value C1 now1 md1 hnr1),
      mkSchema_newRec emb aid 1 tt at_ C1 now1 md1 hnr1]

/-- C5: after `add_artifact` (version 1, content `C1`) followed by
`update_artifact` with content `C2`, `get_artifact` with no version
returns a view with version 2, content `C2`, status ACTIVE and
task/artifact type inherited from version 1, while
`get_artifact(version=1)` still returns the original content. -/
theorem C5_update_creates_new_version_old_intact (emb : String → List Int)
    (now1 now2 genId tt : String) (at_ : ArtifactType) (C1 C2 : String)
    (md1 md2 : Dict) (aid : String)
    (haid : aid ≠ "") (hnr1 : NoReserved md1) (hnr2 : NoReserved md2) :
    (add_artifact emb now1 genId [] tt at_ C1 md1 (some aid)).2.version = 1 ∧
    ∃ s2 s1 : ArtifactSchema,
      get_artifact (update_artifact emb now2
        ((add_artifact emb now1 genId [] tt at_ C1 md1 (some aid)).1) aid C2 md2).1
        aid none = some s2 ∧
      s2.version = 2 ∧ s2.content = C2 ∧ s2.status = .active ∧
      s2.task_type = tt ∧ s2.artifact_type = at_ ∧
      get_artifact (update_artifact emb now2
        ((add_artifact emb now1 genId [] tt at_ C1 md1 (some aid)).1) aid C2 md2).1
        aid (some 1) = some s1 ∧
      s1.version = 1 ∧ s1.content = C1 := by
  have hc1 : (add_artifact emb now1 genId [] tt at_ C1 md1 (some aid)).1
      = [newRec emb aid 1 tt at_.value C1 now1 md1] := by
    unfold add_artifact
    simp [haid, collAdd]
  have hlat : getArtifactR
      (.ok (collGetWhere [newRec emb aid 1 tt at_.value C1 now1 md1]
        [("artifact_id", MVal.s aid)])) none
      = some ⟨aid, tt, at_, 1, C1,
          customOf (newRec emb aid 1 tt at_.value C1 now1 md1).metadata,
          .active, none, none, none, now1⟩ :=
    get_artifact_after_add emb now1 tt at_ C1 md1 aid hnr1
  have hc2 : (update_artifact emb now2 [newRec emb aid 1 tt at_.value C1 now1 md1]
        aid C2 md2).1
      = [newRec emb aid 1 tt at_.value C1 now1 md1,
         newRec emb aid 2 tt at_.value C2 now2 md2] := by
    unfold update_artifact update_artifactFull
    rw [hlat]
    rfl
  refine ⟨rfl, ⟨aid, tt, at_, 2, C2,
      customOf (newRec emb aid 2 tt at_.value C2 now2 md2).metadata,
      .active, none, none, none, now2⟩,
    ⟨aid, tt, at_, 1, C1,
      customOf (newRec emb aid 1 tt at_.value C1 now1 md1).metadata,
      .active, none, none, none, now1⟩, ?_, rfl, rfl, rfl, rfl, rfl, ?_, rfl, rfl⟩
  · rw [hc1, hc2]
    exact (get_artifact_two_versions emb now1 now2 tt at_ C1 C2 md1 md2 aid hnr1 hnr2).1
  · rw [hc1, hc2]
    exact (get_artifact_two_versions emb now1 now2 tt at_ C1 C2 md1 md2 aid hnr1 hnr2).2

theorem C5_update_creates_new_version_old_intact_witness :
    ((get_artifact (update_artifact (fun _ => []) "T2"
        ((add_artifact (fun _ => []) "T1" "G" [] "t" ArtifactType.practice "C1" []
          (some "A")).1) "A" "C2" []).1 "A" none).map
        (fun s => (s.version, s.content, s.status))
      = some (2, "C2", ArtifactStatus.active)) ∧
    ((get_artifact (update_artifact (fun _ => []) "T2"
        ((add_artifact (fun _ => []) "T1" "G" [] "t" ArtifactType.practice "C1" []
          (some "A")).1) "A" "C2" []).1 "A" (some 1)).map
        (fun s => (s.version, s.content))
      = some (1, "C1")) := by
  obtain ⟨hv, s2, s1, h1, h2, h3, h4, h5, h6, h7, h8, h9⟩ :=
    C5_update_creates_new_version_old_intact (fun _ => []) "T1" "T2" "G" "t"
      ArtifactType.practice "C1" "C2" [] [] "A" (by decide) (by decide) (by decide)
  constructor
  · rw [h1]
    simp only [Option.map_some']
    rw [h2, h3, h4]
  · rw [h7]
    simp only [Option.map_some']
    rw [h8, h9]

/-- C4: `get_artifact` never raises — an index exception is converted
to `None`, an empty result set yields `None`; with a version argument
it returns the view of the record fetched at the exact key
`"{artifact_id}_v{version}"`, and with no version it returns the view
of a matching record achieving the maximum version number among the
records whose `artifact_id` equals the argument. -/
theorem C4_get_artifact_total_resolution (c : Coll) (aid : String) :
    (∀ e : String, ∀ v : Option Int, getArtifactR (.error e) v = none) ∧
    (∀ v : Int, collGetByIds c [mkArtifactKey aid v] = [] →
      get_artifact c aid (some v) = none) ∧
    (collGetWhere c [("artifact_id", MVal.s aid)] = [] →
      get_artifact c aid none = none) ∧
    (∀ v : Int, ∀ r : Rec, collGetByIds c [mkArtifactKey aid v] = [r] →
      verOf r = some (MVal.i v) →
      get_artifact c aid (some v)
        = (match mkSchema r with | .ok s => some s | .error _ => none)) ∧
    (∀ r0 rest, collGetWhere c [("artifact_id", MVal.s aid)] = r0 :: rest →
      (∀ r ∈ r0 :: rest, WfVer r) → (∀ r ∈ r0 :: rest, 1 ≤ verD r) →
      ∃ r ∈ r0 :: rest, (∀ r' ∈ r0 :: rest, verD r' ≤ verD r) ∧
        get_artifact c aid none
          = (match mkSchema r with | .ok s => some s | .error _ => none)) := by
  refine ⟨?_, ?_, ?_, ?_, ?_⟩
  · intro e v
    rfl
  · intro v h
    have hstep : get_artifact c aid (some v)
        = getArtifactCore (collGetByIds c [mkArtifactKey aid v]) (some v) := rfl
    rw [hstep, h]
    rfl
  · intro h
    have hstep : get_artifact c aid none
        = getArtifactCore (collGetWhere c [("artifact_id", MVal.s aid)]) none := rfl
    rw [hstep, h]
    rfl
  · intro v r hid hver
    exact get_artifact_at_version c aid v r hid hver
  · intro r0 rest hr hwf hpos
    exact get_artifact_latest c aid r0 rest hr hwf hpos

theorem C4_get_artifact_total_resolution_witness :
    (getArtifactR (.error "boom") (some 1) = none) ∧
    (get_artifact [] "A" (some 1) = none) ∧
    (get_artifact [] "A" none = none) ∧
    (get_artifact [newRec (fun _ => []) "A" 1 "t" "practice" "C" "T1" []] "A" (some 1)
      = some ⟨"A", "t", ArtifactType.practice, 1, "C", [], .active, none, none, none, "T1"⟩) ∧
    (get_artifact [newRec (fun _ => []) "A" 1 "t" "practice" "C" "T1" []] "A" none
      = some ⟨"A", "t", ArtifactType.practice, 1, "C", [], .active, none, none, none, "T1"⟩) := by
  have H0 := C4_get_artifact_total_resolution [] "A"
  have H1 := C4_get_artifact_total_resolution
    [newRec (fun _ => []) "A" 1 "t" "practice" "C" "T1" []] "A"
  refine ⟨H0.1 "boom" (some 1), H0.2.1 1 rfl, H0.2.2.1 rfl, ?_, ?_⟩
  · exact (H1.2.2.2.1 1 (newRec (fun _ => []) "A" 1 "t" "practice" "C" "T1" []) rfl rfl).trans rfl
  · obtain ⟨r, hmem, hmax, heq⟩ := H1.2.2.2.2
      (newRec (fun _ => []) "A" 1 "t" "practice" "C" "T1" []) [] rfl
      (by intro r hr; rw [List.mem_singleton] at hr; subst hr; exact ⟨1, rfl⟩)
      (by intro r hr; rw [List.mem_singleton] at hr; subst hr; decide)
    rw [List.mem_singleton] at hmem
    subst hmem
    exact heq.trans rfl

theorem pyGt_true_bound (v w : MVal) (n : Int) (hv : toNum v = some n)
    (hgt : pyGt v w = .ok true) : ∃ m, toNum w = some m ∧ m < n := by
  cases v with
  | s x => exact absurd hv (by simp [toNum])
  | null => exact absurd hv (by simp [toNum])
  | i a =>
    have hn : a = n := by simpa [toNum] using hv
    subst hn
    cases w with
    | i b =>
      refine ⟨b, by simp [toNum], ?_⟩
      simpa [pyGt, toNum] using hgt
    | b bb =>
      refine ⟨if bb then 1 else 0, by simp [toNum], ?_⟩
      simpa [pyGt, toNum] using hgt
    | s y => exact absurd hgt (by simp [pyGt, toNum])
    | null => exact absurd hgt (by simp [pyGt, toNum])
  | b ab =>
    have hn : (if ab then (1 : Int) else 0) = n := by simpa [toNum] using hv
    subst hn
    cases w with
    | i b =>
      refine ⟨b, by simp [toNum], ?_⟩
      simpa [pyGt, toNum] using hgt
    | b bb =>
      refine ⟨if bb then 1 else 0, by simp [toNum], ?_⟩
      simpa [pyGt, toNum] using hgt
    | s y => exact absurd hgt (by simp [pyGt, toNum])
    | null => exact absurd hgt (by simp [pyGt, toNum])

theorem pyGt_false_bound (v w : MVal) (n : Int) (hw : toNum w = some n)
    (hf : pyGt v w = .ok false) : ∃ m, toNum v = some m ∧ m ≤ n := by
  cases w with
  | s x => exact absurd hw (by simp [toNum])
  | null => exact absurd hw (by simp [toNum])
  | i a =>
    have hn : a = n := by simpa [toNum] using hw
    subst hn
    cases v with
    | i b =>
      refine ⟨b, by simp [toNum], ?_⟩
      have := by simpa [pyGt, toNum] using hf
      omega
    | b bb =>
      refine ⟨if bb then 1 else 0, by simp [toNum], ?_⟩
      have := by simpa [pyGt, toNum] using hf
      omega
    | s y => exact absurd hf (by simp [pyGt, toNum])
    | null => exact absurd hf (by simp [pyGt, toNum])
  | b ab =>
    have hn : (if ab then (1 : Int) else 0) = n := by simpa [toNum] using hw
    subst hn
    cases v with
    | i b =>
      refine ⟨b, by simp [toNum], ?_⟩
      have := by simpa [pyGt, toNum] using hf
      omega
    | b bb =>
      refine ⟨if bb then 1 else 0, by simp [toNum], ?_⟩
      have := by simpa [pyGt, toNum] using hf
      omega
    | s y => exact absurd hf (by simp [pyGt, toNum])
    | null => exact absurd hf (by simp [pyGt, toNum])

theorem groupStep_ok (G : List (MVal × MVal × Rec)) (r : Rec)
    (G1 : List (MVal × MVal × Rec)) (h : groupStep G r = .ok G1) :
    ∃ a v, aidOf r = some a ∧ verOf r = some v ∧
      ((G.find? (fun g => g.1 = a) = none ∧ G1 = G ++ [(a, v, r)]) ∨
       (∃ g0, G.find? (fun g => g.1 = a) = some g0 ∧ pyGt v g0.2.1 = .ok true ∧
          G1 = G.map (fun g' => if g'.1 = a then (a, v, r) else g')) ∨
       (∃ g0, G.find? (fun g => g.1 = a) = some g0 ∧ pyGt v g0.2.1 = .ok false ∧
          G1 = G)) := by
  unfold groupStep at h
  cases ha : dictGet? r.metadata "artifact_id" with
  | none =>
    rw [ha] at h
    cases hv : dictGet? r.metadata "version" with
    | none => rw [hv] at h; exact absurd h (by simp)
    | some v => rw [hv] at h; exact absurd h (by simp)
  | some a =>
    rw [ha] at h
    cases hv : dictGet? r.metadata "version" with
    | none => rw [hv] at h; exact absurd h (by simp)
    | some v =>
      rw [hv] at h
      refine ⟨a, v, ha, hv, ?_⟩
      have h' : (match G.find? (fun g => g.1 = a) with
          | none => Except.ok (G ++ [(a, v, r)])
          | some g =>
            match pyGt v g.2.1 with
            | Except.error e => Except.error e
            | Except.ok true =>
              Except.ok (G.map (fun g' => if g'.1 = a then (a, v, r) else g'))
            | Except.ok false => Except.ok G)
          = Except.ok G1 := h
      clear h
      cases hf : G.find? (fun g => g.1 = a) with
      | none =>
        rw [hf] at h'
        injection h' with h2
        exact Or.inl ⟨rfl, h2.symm⟩
      | some g0 =>
        rw [hf] at h'
        have h2 : (match pyGt v g0.2.1 with
            | Except.error e => (Except.error e : Except Unit (List (MVal × MVal × Rec)))
            | Except.ok true =>
              Except.ok (G.map (fun g' => if g'.1 = a then (a, v, r) else g'))
            | Except.ok false => Except.ok G)
            = Except.ok G1 := h'
        clear h'
        cases hgt : pyGt v g0.2.1 with
        | error e => rw [hgt] at h2; exact absurd h2 (by simp)
        | ok b =>
          rw [hgt] at h2
          cases b with
          | true =>
            injection h2 with h3
            exact Or.inr (Or.inl ⟨g0, rfl, hgt, h3.symm⟩)
          | false =>
            injection h2 with h3
            exact Or.inr (Or.inr ⟨g0, rfl, hgt, h3.symm⟩)

theorem groupStep_inv (Q : List Rec) (G G1 : List (MVal × MVal × Rec)) (r : Rec)
    (h : groupStep G r = .ok G1) (hinv : GroupInv Q G) : GroupInv (Q ++ [r]) G1 := by
  obtain ⟨a, v, ha, hv, hcase⟩ := groupStep_ok G r G1 h
  obtain ⟨hnd, hent, hcov, hbound⟩ := hinv
  rcases hcase with ⟨hf, rfl⟩ | ⟨g0, hf, hgt, rfl⟩ | ⟨g0, hf, hgt, hGG⟩
  · -- new group appended
    have hnotin : ∀ g ∈ G, g.1 ≠ a := by
      intro g hg
      have := List.find?_eq_none.mp hf g hg
      simpa using this
    refine ⟨?_, ?_, ?_, ?_⟩
    · rw [List.map_append]
      rw [List.nodup_append]
      refine ⟨hnd, List.nodup_singleton a, ?_⟩
      intro x hx hx2
      simp only [List.map_cons, List.map_nil, List.mem_singleton] at hx2
      obtain ⟨g, hg, hgx⟩ := List.mem_map.mp hx
      exact hnotin g hg (hgx.trans hx2)
    · intro g hg
      rcases List.mem_append.mp hg with hgG | hglast
      · obtain ⟨h1, h2, h3⟩ := hent g hgG
        exact ⟨h1, h2, List.mem_append_left _ h3⟩
      · have hge : g = (a, v, r) := List.mem_singleton.mp hglast
        subst hge
        exact ⟨ha, hv, List.mem_append_right _ (List.mem_singleton.mpr rfl)⟩
    · intro r' hr'
      rcases List.mem_append.mp hr' with hrQ | hrlast
      · obtain ⟨g, hgG, hgaid⟩ := hcov r' hrQ
        exact ⟨g, List.mem_append_left _ hgG, hgaid⟩
      · have hre : r' = r := List.mem_singleton.mp hrlast
        refine ⟨(a, v, r), List.mem_append_right _ (List.mem_singleton.mpr rfl), ?_⟩
        rw [hre]
        exact ha
    · intro g hg n hn r' hr' haid'
      rcases List.mem_append.mp hg with hgG | hglast
      · rcases List.mem_append.mp hr' with hrQ | hrlast
        · exact hbound g hgG n hn r' hrQ haid'
        · have hre : r' = r := List.mem_singleton.mp hrlast
          subst hre
          rw [ha] at haid'
          injection haid' with he
          exact absurd he.symm (hnotin g hgG)
      · have hge : g = (a, v, r) := List.mem_singleton.mp hglast
        subst hge
        rcases List.mem_append.mp hr' with hrQ | hrlast
        · obtain ⟨g', hg'G, hg'aid⟩ := hcov r' hrQ
          rw [haid'] at hg'aid
          injection hg'aid with he
          exact absurd he.symm (hnotin g' hg'G)
        · have hre : r' = r := List.mem_singleton.mp hrlast
          subst hre
          exact ⟨v, n, hv, hn, le_refl n⟩
  · -- existing group updated (strictly larger version)
    have hg0mem : g0 ∈ G := List.mem_of_find?_eq_some hf
    have hg0a : g0.1 = a := by
      have := List.find?_some hf
      simpa using this
    have hkeys : (G.map (fun g' => if g'.1 = a then (a, v, r) else g')).map (fun g => g.1)
        = G.map (fun g => g.1) := by
      rw [List.map_map]
      apply List.map_congr_left
      intro g' _
      by_cases h' : g'.1 = a
      · simp [h']
      · simp [h']
    refine ⟨by rw [hkeys]; exact hnd, ?_, ?_, ?_⟩
    · intro g1 hg1
      obtain ⟨g', hg'G, hfe⟩ := List.mem_map.mp hg1
      by_cases h' : g'.1 = a
      · rw [if_pos h'] at hfe
        subst hfe
        exact ⟨ha, hv, List.mem_append_right _ (List.mem_singleton.mpr rfl)⟩
      · rw [if_neg h'] at hfe
        subst hfe
        obtain ⟨h1, h2, h3⟩ := hent g' hg'G
        exact ⟨h1, h2, List.mem_append_left _ h3⟩
    · intro r' hr'
      rcases List.mem_append.mp hr' with hrQ | hrlast
      · obtain ⟨g', hg'G, hg'aid⟩ := hcov r' hrQ
        refine ⟨(if g'.1 = a then (a, v, r) else g'), List.mem_map_of_mem _ hg'G, ?_⟩
        by_cases h' : g'.1 = a
        · rw [if_pos h']
          rw [hg'aid, h']
        · rw [if_neg h']
          exact hg'aid
      · have hre : r' = r := List.mem_singleton.mp hrlast
        refine ⟨(if g0.1 = a then (a, v, r) else g0), List.mem_map_of_mem _ hg0mem, ?_⟩
        rw [if_pos hg0a, hre]
        exact ha
    · intro g1 hg1 n hn r' hr' haid'
      obtain ⟨g', hg'G, hfe⟩ := List.mem_map.mp hg1
      by_cases h' : g'.1 = a
      · rw [if_pos h'] at hfe
        subst hfe
        rcases List.mem_append.mp hr' with hrQ | hrlast
        · obtain ⟨m0, hm0, hlt⟩ := pyGt_true_bound v g0.2.1 n hn hgt
          have haid0 : aidOf r' = some g0.1 := by rw [hg0a]; exact haid'
          obtain ⟨v', m, hv', hm, hle⟩ := hbound g0 hg0mem m0 hm0 r' hrQ haid0
          exact ⟨v', m, hv', hm, le_trans hle (le_of_lt hlt)⟩
        · have hre : r' = r := List.mem_singleton.mp hrlast
          subst hre
          exact ⟨v, n, hv, hn, le_refl n⟩
      · rw [if_neg h'] at hfe
        subst hfe
        rcases List.mem_append.mp hr' with hrQ | hrlast
        · exact hbound g' hg'G n hn r' hrQ haid'
        · have hre : r' = r := List.mem_singleton.mp hrlast
          subst hre
          rw [ha] at haid'
          injection haid' with he
          exact absurd he.symm h'
  · -- existing group wins (no update)
    rw [hGG]
    have hg0mem : g0 ∈ G := List.mem_of_find?_eq_some hf
    have hg0a : g0.1 = a := by
      have := List.find?_some hf
      simpa using this
    have huniq : ∀ g ∈ G, g.1 = a → g = g0 := by
      intro g hg hga
      exact List.inj_on_of_nodup_map hnd hg hg0mem (by rw [hga, hg0a])
    refine ⟨hnd, ?_, ?_, ?_⟩
    · intro g hg
      obtain ⟨h1, h2, h3⟩ := hent g hg
      exact ⟨h1, h2, List.mem_append_left _ h3⟩
    · intro r' hr'
      rcases List.mem_append.mp hr' with hrQ | hrlast
      · exact hcov r' hrQ
      · have hre : r' = r := List.mem_singleton.mp hrlast
        subst hre
        exact ⟨g0, hg0mem, by rw [ha, hg0a]⟩
    · intro g hg n hn r' hr' haid'
      rcases List.mem_append.mp hr' with hrQ | hrlast
      · exact hbound g hg n hn r' hrQ haid'
      · have hre : r' = r := List.mem_singleton.mp hrlast
        subst hre
        rw [ha] at haid'
        injection haid' with he
        have hge : g = g0 := huniq g hg he.symm
        subst hge
        obtain ⟨m, hm, hle⟩ := pyGt_false_bound v g.2.1 n hn hgt
        exact ⟨v, m, hv, hm, hle⟩

theorem groupFold_inv :
    ∀ (P Q : List Rec) (G G' : List (MVal × MVal × Rec)),
      groupFold G P = .ok G' → GroupInv Q G → GroupInv (Q ++ P) G' := by
  intro P
  induction P with
  | nil =>
    intro Q G G' h hinv
    unfold groupFold at h
    injection h with h2
    subst h2
    simpa using hinv
  | cons r P' ih =>
    intro Q G G' h hinv
    unfold groupFold at h
    cases hs : groupStep G r with
    | error e => rw [hs] at h; exact absurd h (by simp)
    | ok G1 =>
      rw [hs] at h
      have := ih (Q ++ [r]) G1 G' h (groupStep_inv Q G G1 r hs hinv)
      simpa [List.append_assoc] using this

theorem viewsOf_ok :
    ∀ (G : List (MVal × MVal × Rec)) (l : List ArtifactSchema),
      viewsOf G = .ok l → List.Forall₂ (fun g s => mkSchema g.2.2 = .ok s) G l := by
  intro G
  induction G with
  | nil =>
    intro l h
    unfold viewsOf at h
    injection h with h2
    subst h2
    exact List.Forall₂.nil
  | cons g gs ih =>
    intro l h
    unfold viewsOf at h
    cases hm : mkSchema g.2.2 with
    | error e => rw [hm] at h; exact absurd h (by simp)
    | ok s =>
      rw [hm] at h
      cases hv : viewsOf gs with
      | error e => rw [hv] at h; exact absurd h (by simp)
      | ok ss =>
        rw [hv] at h
        injection h with h2
        subst h2
        exact List.Forall₂.cons hm (ih ss hv)

theorem forall₂_mem_right {α β : Type} {R : α → β → Prop} :
    ∀ {xs : List α} {ys : List β}, List.Forall₂ R xs ys →
      ∀ y ∈ ys, ∃ x ∈ xs, R x y := by
  intro xs ys h
  induction h with
  | nil =>
    intro y hy
    exact absurd hy (List.not_mem_nil y)
  | @cons x y xs' ys' hR hrest ih =>
    intro y' hy'
    rcases List.mem_cons.mp hy' with h1 | h1
    · exact ⟨x, List.mem_cons_self x xs', h1 ▸ hR⟩
    · obtain ⟨x', hx', hR'⟩ := ih y' h1
      exact ⟨x', List.mem_cons_of_mem x hx', hR'⟩

theorem pairwise_distinct_aids :
    ∀ (G : List (MVal × MVal × Rec)) (l : List ArtifactSchema),
      List.Forall₂ (fun g s => mkSchema g.2.2 = .ok s) G l →
      (∀ g ∈ G, aidOf g.2.2 = some g.1) →
      (G.map (fun g => g.1)).Nodup →
      List.Pairwise (fun s1 s2 => s1.artifact_id ≠ s2.artifact_id) l := by
  intro G l h
  induction h with
  | nil =>
    intro _ _
    exact List.Pairwise.nil
  | @cons g s G' l' hgs hrest ih =>
    intro haid hnd
    rw [List.map_cons, List.nodup_cons] at hnd
    refine List.Pairwise.cons ?_ (ih (fun g' hg' => haid g' (List.mem_cons_of_mem _ hg')) hnd.2)
    intro s' hs' hcontra
    obtain ⟨g', hg', hg's'⟩ := forall₂_mem_right hrest s' hs'
    have h1 : g.1 = MVal.s s.artifact_id := by
      have hf := (mkSchema_ok_fields _ _ hgs).1
      have h2 := haid g (List.mem_cons_self g G')
      rw [hf] at h2
      injection h2 with h3
      exact h3.symm
    have h1' : g'.1 = MVal.s s'.artifact_id := by
      have hf := (mkSchema_ok_fields _ _ hg's').1
      have h2 := haid g' (List.mem_cons_of_mem _ hg')
      rw [hf] at h2
      injection h2 with h3
      exact h3.symm
    apply hnd.1
    rw [h1, hcontra, ← h1']
    exact List.mem_map_of_mem _ hg'

/-- Full behaviour of a successful `list_artifacts` call: entries have
pairwise-distinct artifact ids, and each entry is reconstructed from a
matching record whose integer version dominates the numeric versions
of every matching record with the same `artifact_id`. -/
theorem list_artifacts_spec (c : Coll) (tt : Option String)
    (at? : Option ArtifactType) (st : ArtifactStatus) (l : List ArtifactSchema)
    (h : list_artifacts c tt at? st = .ok l) :
    List.Pairwise (fun s1 s2 => s1.artifact_id ≠ s2.artifact_id) l ∧
    ∀ s ∈ l, ∃ r ∈ collGetWhere c (listConds tt at? st),
      aidOf r = some (.s s.artifact_id) ∧ verOf r = some (.i s.version) ∧
      mkSchema r = .ok s ∧
      ∀ r' ∈ collGetWhere c (listConds tt at? st),
        aidOf r' = some (.s s.artifact_id) →
        ∃ v m, verOf r' = some v ∧ toNum v = some m ∧ m ≤ s.version := by
  unfold list_artifacts at h
  have h2 : (match groupFold [] (collGetWhere c (listConds tt at? st)) with
      | Except.error e => (Except.error e : Except Unit (List ArtifactSchema))
      | Except.ok groups => viewsOf groups) = Except.ok l := h
  clear h
  cases hg : groupFold [] (collGetWhere c (listConds tt at? st)) with
  | error e => rw [hg] at h2; exact absurd h2 (by simp)
  | ok G =>
    rw [hg] at h2
    have hinv : GroupInv (collGetWhere c (listConds tt at? st)) G := by
      have h0 : GroupInv [] ([] : List (MVal × MVal × Rec)) := by
        refine ⟨List.nodup_nil, ?_, ?_, ?_⟩ <;> intro x hx <;> exact absurd hx (List.not_mem_nil x)
      simpa using groupFold_inv _ [] [] G hg h0
    obtain ⟨hnd, hent, _, hbound⟩ := hinv
    have hcorr := viewsOf_ok G l h2
    constructor
    · exact pairwise_distinct_aids G l hcorr (fun g hg' => (hent g hg').1) hnd
    · intro s hs
      obtain ⟨g, hgmem, hgs⟩ := forall₂_mem_right hcorr s hs
      obtain ⟨haid, hver, hmem⟩ := hent g hgmem
      obtain ⟨hfa, hfv, _⟩ := mkSchema_ok_fields _ _ hgs
      have hkey : g.1 = MVal.s s.artifact_id := by
        rw [hfa] at haid
        injection haid with h3
        exact h3.symm
      have hverval : g.2.1 = MVal.i s.version := by
        rw [hfv] at hver
        injection hver with h3
        exact h3.symm
      refine ⟨g.2.2, hmem, hfa, hfv, hgs, ?_⟩
      intro r' hr' haid'
      have := hbound g hgmem s.version (by rw [hverval]; rfl) r' hr' (by rw [hkey]; exact haid')
      exact this

/-- C8: for every collection state and filter combination, a
successful `list_artifacts` call never returns two entries with the
same `artifact_id`, and the entry kept for each `artifact_id` carries
the maximum version number among the records matching the filter for
that id (every other matching record of the id has a numeric version
value not exceeding it). -/
theorem C8_list_dedup_and_latest_wins (c : Coll) (tt : Option String)
    (at? : Option ArtifactType) (st : ArtifactStatus) (l : List ArtifactSchema)
    (h : list_artifacts c tt at? st = .ok l) :
    List.Pairwise (fun s1 s2 => s1.artifact_id ≠ s2.artifact_id) l ∧
    ∀ s ∈ l, ∃ r ∈ collGetWhere c (listConds tt at? st),
      aidOf r = some (.s s.artifact_id) ∧ verOf r = some (.i s.version) ∧
      mkSchema r = .ok s ∧
      ∀ r' ∈ collGetWhere c (listConds tt at? st),
        aidOf r' = some (.s s.artifact_id) →
        ∃ v m, verOf r' = some v ∧ toNum v = some m ∧ m ≤ s.version :=
  list_artifacts_spec c tt at? st l h

theorem C8_list_dedup_and_latest_wins_witness :
    (list_artifacts
        (update_artifact (fun _ => []) "T2"
          (add_artifact (fun _ => []) "T1" "G" [] "t" ArtifactType.practice "C1" []
            (some "A")).1 "A" "C2" []).1
        (some "t") none .active
      = .ok [⟨"A", "t", ArtifactType.practice, 2, "C2", [], .active,
             none, none, none, "T2"⟩]) ∧
    List.Pairwise (fun s1 s2 => s1.artifact_id ≠ s2.artifact_id)
      [(⟨"A", "t", ArtifactType.practice, 2, "C2", [], .active,
         none, none, none, "T2"⟩ : ArtifactSchema)] := by
  refine ⟨rfl, ?_⟩
  exact (C8_list_dedup_and_latest_wins
    (update_artifact (fun _ => []) "T2"
      (add_artifact (fun _ => []) "T1" "G" [] "t" ArtifactType.practice "C1" []
        (some "A")).1 "A" "C2" []).1
    (some "t") none .active
    [⟨"A", "t", ArtifactType.practice, 2, "C2", [], .active, none, none, none, "T2"⟩]
    rfl).1

/-- C1 counterexample: create an artifact, update it (version 2), then
archive it. Version 1 still has status `"active"`, matches the
`status=ACTIVE` filter, and `list_artifacts` returns the artifact at
version 1 — not the empty list the claim requires when older versions
of the archived artifact are still stored with status ACTIVE. -/
theorem C1_counterexample :
    list_artifacts
      (delete_artifact "T3"
        (update_artifact (fun _ => []) "T2"
          (add_artifact (fun _ => []) "T1" "G" [] "cv_review" ArtifactType.practice
            "C1" [] (some "A")).1 "A" "C2" []).1
        "A" (some "superseded") none).1
      (some "cv_review") none .active
      = .ok [⟨"A", "cv_review", ArtifactType.practice, 1, "C1", [], .active,
             none, none, none, "T1"⟩] := rfl

/-- C1 (amended): `list_artifacts(status=ACTIVE)` excludes an artifact
only when none of its stored records has status `"active"` — in
particular an artifact whose only version has been archived; an
archived artifact that retains an older ACTIVE version is still
listed (at that older version, per C8's latest-wins grouping). -/
theorem C1_amended_active_listing_excludes_fully_archived
    (c : Coll) (tt : Option String) (at? : Option ArtifactType) (X : String)
    (h : ∀ r ∈ c, aidOf r = some (MVal.s X) →
      dictGet? r.metadata "status" ≠ some (MVal.s "active"))
    (l : List ArtifactSchema) (hok : list_artifacts c tt at? .active = .ok l) :
    ∀ s ∈ l, s.artifact_id ≠ X := by
  intro s hs hX
  obtain ⟨_, hmax⟩ := list_artifacts_spec c tt at? .active l hok
  obtain ⟨r, hrmem, hraid, _, _, _⟩ := hmax s hs
  have hr := (mem_collGetWhere c _ r).mp hrmem
  have hstatus : dictGet? r.metadata "status" = some (MVal.s "active") := by
    have hmem : ("status", MVal.s "active") ∈ listConds tt at? .active := by
      simp [listConds, ArtifactStatus.value]
    exact hr.2 ("status", MVal.s "active") hmem
  exact h r hr.1 (hX ▸ hraid) hstatus

theorem C1_amended_active_listing_excludes_fully_archived_witness :
    (list_artifacts
        (delete_artifact "T3"
          (add_artifact (fun _ => []) "T1" "G"
            (add_artifact (fun _ => []) "T1" "G" [] "t" ArtifactType.practice "B1" []
              (some "B")).1
            "t" ArtifactType.practice "A1" [] (some "A")).1
          "A" none none).1
        none none .active
      = .ok [⟨"B", "t", ArtifactType.practice, 1, "B1", [], .active,
             none, none, none, "T1"⟩]) ∧
    (⟨"B", "t", ArtifactType.practice, 1, "B1", [], .active,
      none, none, none, "T1"⟩ : ArtifactSchema).artifact_id ≠ "A" := by
  refine ⟨rfl, ?_⟩
  exact C1_amended_active_listing_excludes_fully_archived
    (delete_artifact "T3"
      (add_artifact (fun _ => []) "T1" "G"
        (add_artifact (fun _ => []) "T1" "G" [] "t" ArtifactType.practice "B1" []
          (some "B")).1
        "t" ArtifactType.practice "A1" [] (some "A")).1
      "A" none none).1
    none none "A" (by decide)
    [⟨"B", "t", ArtifactType.practice, 1, "B1", [], .active, none, none, none, "T1"⟩]
    rfl
    ⟨"B", "t", ArtifactType.practice, 1, "B1", [], .active, none, none, none, "T1"⟩
    (by decide)
